import Mathlib

/-!
Verification of the gated denoise/discriminator pipeline
(`research/object_detection`: `module.py`, `denoise.py`, `evaluator.py`,
`backup/add_noise.py`).

Tensors are embedded as nested lists of rationals:
a pixel is a channel vector `Chan`, an image is a height-indexed list of
width-indexed rows of pixels, and a network input is a `Batch` (list of
images), mirroring the `[batch, height, width, channels]` layout.

TensorFlow variables live in an explicit store: a list of
(fully-scoped name, value) bindings, created and read by `get_variable`
with the reuse discipline of `tf.variable_scope` (create on first build,
error on re-creation, read-only under `reuse=True`).

The repository's `ops.py` (imported by `module.py` as `from ops import *`)
is not part of the sources; the network-layer primitives taken from it
(`conv2d`, `deconv2d`, `instance_norm`, `lrelu`, `linear`) and the
TensorFlow nonlinearities without rational closed forms (`sigmoid`,
`tanh`, `softmax`, `sigmoid_cross_entropy_with_logits`) are modelled from
the specification, keeping their shape behaviour, their variable-store
access pattern, and the bounds the spec relies on.
-/

/-- A pixel: one rational per channel. -/
abbrev Chan := List ℚ

/-- An image: rows of pixels. -/
abbrev Image := List (List Chan)

/-- A batch of images, the `[batch, height, width, channels]` tensor. -/
abbrev Batch := List Image

/-- The TensorFlow variable store: fully scoped name to value bindings,
most recent first. -/
abbrev Store := List (String × ℚ)

/-- A losses dictionary, mirroring the Python `losses_dict`. -/
abbrev LossD := List (String × ℚ)

/-- All scalar entries of an image, flattened. -/
def imageVals (im : Image) : List ℚ :=
  im.flatMap (fun r => r.flatMap (fun c => c))

/-- All scalar entries of a batch, flattened. -/
def batchVals (b : Batch) : List ℚ :=
  b.flatMap imageVals

/-- Embedding of `tf.reduce_mean` over all axes of one image (axes `[1, 2, 3]` of the
batch tensor). -/
def imageMean (im : Image) : ℚ :=
  (imageVals im).sum / (imageVals im).length

/-- Embedding of `tf.reduce_mean` over a whole batch tensor. -/
def tensorMean (b : Batch) : ℚ :=
  (batchVals b).sum / (batchVals b).length

/-- Pointwise map over an image. -/
def mapImage (f : ℚ → ℚ) (im : Image) : Image :=
  im.map (fun r => r.map (fun c => c.map f))

/-- Pointwise map over a batch. -/
def mapBatch (f : ℚ → ℚ) (b : Batch) : Batch :=
  b.map (mapImage f)

/-- Pointwise combination of two images (`tf.add`, `tf.abs (a - b)`, ...;
the call sites have equal shapes). -/
def zipImage (f : ℚ → ℚ → ℚ) (a b : Image) : Image :=
  List.zipWith (fun ra rb => List.zipWith (fun ca cb => List.zipWith f ca cb) ra rb) a b

/-- Pointwise combination of two batches. -/
def zipBatch (f : ℚ → ℚ → ℚ) (a b : Batch) : Batch :=
  List.zipWith (zipImage f) a b

/-- Embedding of `tf.clip_by_value`. -/
def clip_by_value (v lo hi : ℚ) : ℚ :=
  min (max v lo) hi

/-- Embedding of `tf.ones_like`. -/
def onesLike (b : Batch) : Batch :=
  mapBatch (fun _ => 1) b

/-- Embedding of `tf.zeros_like`. -/
def zerosLike (b : Batch) : Batch :=
  mapBatch (fun _ => 0) b

/-- An image is an `h × w` rectangle (every row has width `w`). -/
def rectI (im : Image) (h w : ℕ) : Prop :=
  im.length = h ∧ ∀ r ∈ im, r.length = w

/-- Every image of a batch is an `h × w` rectangle. -/
def rectB (b : Batch) (h w : ℕ) : Prop :=
  ∀ im ∈ b, rectI im h w

/-- Spatial dimensions of an image, read the way TensorFlow shapes read:
height is the row count, width the length of the first row. -/
def imgDims (im : Image) : ℕ × ℕ :=
  (im.length, (im.headD []).length)

/-! ## `tf.nn.avg_pool`, `'SAME'` padding

Output size, pad-before amount and window index arithmetic follow the
TensorFlow `'SAME'` pooling rules; the average is taken over the window
positions that fall inside the input (padding positions are not
counted), as `avg_pool` does. -/

/-- The `'SAME'` output size: `ceil (n / s)`. -/
def poolOut (n s : ℕ) : ℕ :=
  (n + s - 1) / s

/-- The `'SAME'` padding amount before the first element. -/
def poolPadBefore (n k s : ℕ) : ℕ :=
  ((poolOut n s - 1) * s + k - n) / 2

/-- Input indices covered by pooling window `i` (only in-range positions,
as `avg_pool` averages over the non-padded entries). -/
def poolWindow (n k s i : ℕ) : List ℕ :=
  (List.range k).filterMap (fun d =>
    if poolPadBefore n k s ≤ i * s + d ∧ i * s + d - poolPadBefore n k s < n
    then some (i * s + d - poolPadBefore n k s) else none)

/-- Channel-wise sum of two pixels. -/
def chanAdd (a b : Chan) : Chan :=
  List.zipWith (· + ·) a b

/-- Channel-wise average of a list of pixels. -/
def chanAvg : List Chan → Chan
  | [] => []
  | c :: cs => (cs.foldl chanAdd c).map (fun v => v / ((cs.length : ℚ) + 1))

/-- Pooling of one image with window `kh × kw` and strides `sh, sw`. -/
def avgPoolImage (im : Image) (kh kw sh sw : ℕ) : Image :=
  let h := im.length
  let w := (im.headD []).length
  (List.range (poolOut h sh)).map (fun i =>
    (List.range (poolOut w sw)).map (fun j =>
      chanAvg ((poolWindow h kh sh i).flatMap (fun r =>
        (poolWindow w kw sw j).map (fun c => ((im.getD r []).getD c []))))))

/-- Embedding of `tf.nn.avg_pool(image, ksize, strides, padding='SAME')`; `ksize` and
`strides` are the four-element lists of the call site, read at the
height/width positions as TensorFlow reads them. -/
def avg_pool (b : Batch) (ksize strides : List ℕ) : Batch :=
  b.map (fun im =>
    avgPoolImage im (ksize.getD 1 1) (ksize.getD 2 1) (strides.getD 1 1) (strides.getD 2 1))

/-- Embedding of `average_filter` (`module.py` / `evaluator.py`): the Python strides
expression `4*[1]` is list repetition, i.e. `[1, 1, 1, 1]`. -/
def average_filter (image : Batch) (filter_size : ℕ) : Batch :=
  avg_pool image [1, filter_size, filter_size, 1] (List.replicate 4 1)

/-- An all-zero image, `h × w`, `c` channels. -/
def zeroImage (h w c : ℕ) : Image :=
  List.replicate h (List.replicate w (List.replicate c 0))

/-- An all-zero batch of `n` images, `h × w`, `c` channels. -/
def zeroBatch (n h w c : ℕ) : Batch :=
  List.replicate n (zeroImage h w c)

/-! ## Noise injectors (`evaluator.py`, `backup/add_noise.py`)

`tf.random_uniform` draws are passed in explicitly: a run of the graph
corresponds to one choice of the random tensors, constrained to `[0, 1)`
as the TensorFlow sampler guarantees. -/

/-- Three-way pointwise zip (all call sites have equal shapes). -/
def zipWith3 {α β γ δ : Type} (f : α → β → γ → δ) : List α → List β → List γ → List δ
  | a :: as, b :: bs, c :: cs => f a b c :: zipWith3 f as bs cs
  | _, _, _ => []

/-- Three-way pointwise zip of batches. -/
def zip3Batch (f : ℚ → ℚ → ℚ → ℚ) (a b c : Batch) : Batch :=
  zipWith3 (fun ia ib ic =>
    zipWith3 (fun ra rb rc => zipWith3 (fun ca cb cc => zipWith3 f ca cb cc) ra rb rc) ia ib ic) a b c

/-- One pixel of `get_salt_pepper_noise_image` (`evaluator.py` lines
85-105): `u` is the keep/replace draw, `v` the replacement draw.
`binary = floor(1 - ratio + u)`, the input is rescaled from `[-1, 1]` to
`[0, 1]`, blended, rescaled back and clipped. -/
def saltPepperPixel (x u v r : ℚ) : ℚ :=
  let binary : ℚ := (⌊(1 - r) + u⌋ : ℤ)
  let noise := binary * ((x + 1) / 2) + (1 - binary) * v
  clip_by_value (noise * 2 - 1) (-1) 1

/-- Embedding of `get_salt_pepper_noise_image` (`evaluator.py`; the `rand_stddev`
parameter of the Python signature is never read by the body and is
omitted). -/
def get_salt_pepper_noise_image (image u1 u2 : Batch) (r : ℚ) : Batch :=
  zip3Batch (fun x u v => saltPepperPixel x u v r) image u1 u2

/-- Embedding of `get_snow_image` (`backup/add_noise.py`): the body reads the static
shape, computes the number of snow balls to stamp
(`int(height*width*sparsity/24)`) and draws random stamp positions, but
contains no return statement — the stamping step is missing, so the
Python function returns `None` for every input.  The (unused) snow-ball
count is kept; the unused random position draws are irrelevant to the
absent result. -/
def get_snow_image (image : Batch) (sparsity : ℚ) : Option Batch :=
  let height : ℚ := ((image.headD []).length : ℚ)
  let width : ℚ := (((image.headD []).headD []).length : ℚ)
  let _num_snows : ℤ := ⌊height * width * sparsity / 24⌋
  none

/-! ## Variable store and network layers

`module.py` builds its networks from `ops.py` layers (`conv2d`,
`deconv2d`, `instance_norm`, `lrelu`, `linear`); `ops.py` is not among
the sources, so the layers are modelled from the specification.  What the
claims depend on is kept faithful: which named variables each layer
creates or reuses (`tf.get_variable` under `tf.variable_scope`), the
spatial shape each layer produces, and the bounds of the nonlinearities. -/

/-- Lookup in the variable store (most recent binding wins). -/
def lookupStore : Store → String → Option ℚ
  | [], _ => none
  | (k, v) :: t, n => if k = n then some v else lookupStore t n

/-- Embedding of `tf.get_variable` with the `tf.variable_scope` reuse discipline:
under `reuse=False` a variable must not exist yet and is created from the
initializer; under `reuse=True` it must already exist and is read. -/
def get_variable (reuse : Bool) (init : String → ℚ) (store : Store) (name : String) :
    Except String (Store × ℚ) :=
  match lookupStore store name with
  | some v =>
      if reuse then Except.ok (store, v)
      else Except.error (name ++ " already exists")
  | none =>
      if reuse then Except.error (name ++ " does not exist")
      else Except.ok ((name, init name) :: store, init name)

/-- Modelled from the spec: `ops.py` `lrelu`, a leaky rectifier with
slope `0.2` on the negative side. -/
def lrelu (x : ℚ) : ℚ := max x (x / 5)

/-- Embedding of `tf.nn.relu`. -/
def relu (x : ℚ) : ℚ := max x 0

/-- Modelled from the spec: `tf.nn.tanh`, a bounded (tanh-like)
nonlinearity with values in `(-1, 1)`, here the rational surrogate
`x / (1 + |x|)`. -/
def tanhQ (x : ℚ) : ℚ := x / (1 + |x|)

/-- Modelled from the spec: `tf.nn.sigmoid`, a monotone squashing map
with values in `(0, 1)`, here the rational surrogate
`1/2 + x / (2 (1 + |x|))`. -/
def sigmoidQ (x : ℚ) : ℚ := 1 / 2 + x / (2 * (1 + |x|))

/-- Modelled from the spec:
`tf.nn.sigmoid_cross_entropy_with_logits`, a pointwise penalty comparing
a logit against a `{0, 1}` label, here the rational surrogate
`(sigmoid x - z)^2`. -/
def sigmoid_xent (x z : ℚ) : ℚ := (sigmoidQ x - z) ^ 2

/-- Modelled from the spec: `tf.nn.softmax` on a per-example logit
vector (positive weights normalized to sum 1). -/
def softmaxQ (l : List ℚ) : List ℚ :=
  (l.map sigmoidQ).map (fun e => e / (l.map sigmoidQ).sum)

/-- Channel sum of one pixel, the channel-mixing part of the modelled
convolution. -/
def chanTotal (c : Chan) : ℚ := c.sum

/-- TensorFlow convolution paddings used by the sources. -/
inductive Padding | SAME | VALID
deriving DecidableEq

/-- Convolution output size: `'SAME'` gives `ceil (n / s)`, `'VALID'`
gives `(n - ks) / s + 1`. -/
def convOutSize (pad : Padding) (n ks s : ℕ) : ℕ :=
  match pad with
  | .SAME => poolOut n s
  | .VALID => if ks ≤ n then (n - ks) / s + 1 else 0

/-- Modelled from the spec: the spatial action of a stride-`s`,
kernel-`ks` convolution — output pixel `(i, j)` is an affine map (by the
layer's weights) of the input pixel at stride position `(i*s, j*s)`,
with `dim` output channels. -/
def convApply (w b : ℚ) (dim ks s : ℕ) (pad : Padding) (im : Image) : Image :=
  (List.range (convOutSize pad im.length ks s)).map (fun i =>
    (List.range (convOutSize pad (im.headD []).length ks s)).map (fun j =>
      List.replicate dim (w * chanTotal ((im.getD (i * s) []).getD (j * s) []) + b)))

/-- Modelled from the spec: `ops.py` `conv2d(input, output_dim, ks, s,
padding, name)`; creates/reuses the layer's variables under
`scope/name`. -/
def conv2d (reuse : Bool) (init : String → ℚ) (store : Store) (scope : String)
    (x : Batch) (output_dim ks s : ℕ) (pad : Padding) (name : String) :
    Except String (Store × Batch) := do
  let (s1, w) ← get_variable reuse init store (scope ++ "/" ++ name ++ "/w")
  let (s2, b) ← get_variable reuse init s1 (scope ++ "/" ++ name ++ "/b")
  Except.ok (s2, x.map (convApply w b output_dim ks s pad))

/-- Modelled from the spec: the spatial action of a stride-`s` transposed
convolution — each input pixel expands to an `s × s` block whose value is
an affine map (by the layer's weights) of the input pixel, with `dim`
output channels. -/
def deconvApply (w b : ℚ) (dim s : ℕ) (im : Image) : Image :=
  im.flatMap (fun r =>
    List.replicate s (r.flatMap (fun px =>
      List.replicate s (List.replicate dim (w * chanTotal px + b)))))

/-- Modelled from the spec: `ops.py` `deconv2d(input, output_dim, ks, s,
name)`. -/
def deconv2d (reuse : Bool) (init : String → ℚ) (store : Store) (scope : String)
    (x : Batch) (output_dim ks s : ℕ) (name : String) :
    Except String (Store × Batch) := do
  let (s1, w) ← get_variable reuse init store (scope ++ "/" ++ name ++ "/w")
  let (s2, b) ← get_variable reuse init s1 (scope ++ "/" ++ name ++ "/b")
  Except.ok (s2, x.map (deconvApply w b output_dim s))

/-- Modelled from the spec: `ops.py` `instance_norm(input, name)` —
per-example feature normalization (centering by the example mean) with a
learned scale and offset under `scope/name`. -/
def instance_norm (reuse : Bool) (init : String → ℚ) (store : Store) (scope : String)
    (x : Batch) (name : String) : Except String (Store × Batch) := do
  let (s1, g) ← get_variable reuse init store (scope ++ "/" ++ name ++ "/scale")
  let (s2, o) ← get_variable reuse init s1 (scope ++ "/" ++ name ++ "/offset")
  Except.ok (s2, x.map (fun im => mapImage (fun v => g * (v - imageMean im) + o) im))

/-- Modelled from the spec: `ops.py` `linear(input, output_size)` — a
learned affine map from a per-example feature vector to
`output_size` logits. -/
def linear (reuse : Bool) (init : String → ℚ) (store : Store) (scope : String)
    (xs : List Chan) (output_size : ℕ) : Except String (Store × List Chan) := do
  let (s1, w) ← get_variable reuse init store (scope ++ "/linear/w")
  let (s2, b) ← get_variable reuse init s1 (scope ++ "/linear/b")
  Except.ok (s2, xs.map (fun c => List.replicate output_size (w * chanTotal c + b)))

/-- Embedding of `tf.pad(-, [[0,0],[p,p],[p,p],[0,0]], "REFLECT")` on one axis. -/
def reflectPadList {α : Type} (p : ℕ) (l : List α) : List α :=
  ((l.drop 1).take p).reverse ++ l ++ ((l.reverse.drop 1).take p)

/-- Reflect padding of an image on both spatial axes. -/
def reflectPadImage (p : ℕ) (im : Image) : Image :=
  reflectPadList p (im.map (reflectPadList p))

/-- Shape agreement check of `tf.concat(-, 3)`: channel-wise concatenation; the batch, height and
width dimensions of the two inputs must match, otherwise the graph fails
to build. -/
def sameOuterShape (a b : Batch) : Bool :=
  a.length == b.length &&
  (List.zip a b).all (fun p =>
    p.1.length == p.2.length &&
    (List.zip p.1 p.2).all (fun rr => rr.1.length == rr.2.length))

def tfConcat3 (a b : Batch) : Except String Batch :=
  if sameOuterShape a b then
    Except.ok (List.zipWith (fun ia ib =>
      List.zipWith (fun ra rb => List.zipWith (fun ca cb => ca ++ cb) ra rb) ia ib) a b)
  else Except.error "ConcatOp : Dimensions of inputs should match"

/-! ## `module.py` networks -/

/-- Embedding of `gate(image, df_dim, num_classes, reuse, name)` (`module.py`): three
strided convolution stages, a stride-1 prediction convolution, global
average pooling over the spatial axes, a linear head and a softmax;
`name` is the full variable scope of the call site. -/
def gate (reuse : Bool) (init : String → ℚ) (store : Store) (image : Batch)
    (df_dim num_classes : ℕ) (name : String) : Except String (Store × List Chan) := do
  let (s1, h0c) ← conv2d reuse init store name image df_dim 4 2 Padding.SAME "d_h0_conv"
  let h0 := mapBatch lrelu h0c
  let (s2, h1c) ← conv2d reuse init s1 name h0 (df_dim * 2) 4 2 Padding.SAME "d_h1_conv"
  let (s3, h1n) ← instance_norm reuse init s2 name h1c "d_bn1"
  let h1 := mapBatch lrelu h1n
  let (s4, h2c) ← conv2d reuse init s3 name h1 (df_dim * 4) 4 2 Padding.SAME "d_h2_conv"
  let (s5, h2n) ← instance_norm reuse init s4 name h2c "d_bn2"
  let h2 := mapBatch lrelu h2n
  let (s6, h4) ← conv2d reuse init s5 name h2 (df_dim * 4) 4 1 Padding.SAME "d_h3_pred"
  let global_pool := h4.map (fun im => chanAvg (im.flatMap (fun r => r)))
  let (s7, logits) ← linear reuse init s6 name global_pool num_classes
  Except.ok (s7, logits.map softmaxQ)

/-- Embedding of `discriminator(image, df_dim, ks, df_last_dim, reuse,
name)` (`module.py`): three strided convolution stages (the first without
normalization) and a stride-1 prediction convolution returning the
spatial logit map; `name` is the full variable scope of the call site. -/
def discriminator (reuse : Bool) (init : String → ℚ) (store : Store) (image : Batch)
    (df_dim ks df_last_dim : ℕ) (name : String) : Except String (Store × Batch) := do
  let (s1, h0c) ← conv2d reuse init store name image df_dim ks 2 Padding.SAME "d_h0_conv"
  let h0 := mapBatch lrelu h0c
  let (s2, h1c) ← conv2d reuse init s1 name h0 (df_dim * 2) ks 2 Padding.SAME "d_h1_conv"
  let (s3, h1n) ← instance_norm reuse init s2 name h1c "d_bn1"
  let h1 := mapBatch lrelu h1n
  let (s4, h2c) ← conv2d reuse init s3 name h1 (df_dim * 4) ks 2 Padding.SAME "d_h2_conv"
  let (s5, h2n) ← instance_norm reuse init s4 name h2c "d_bn2"
  let h2 := mapBatch lrelu h2n
  let (s6, h4) ← conv2d reuse init s5 name h2 df_last_dim ks 1 Padding.SAME "d_h3_pred"
  Except.ok (s6, h4)

/-- Embedding of `residule_block(x, dim, ks, s, name)` inside
`generator_resnet`: reflect-pad, valid convolution, normalization,
rectifier, reflect-pad, valid convolution, normalization, additive
skip. -/
def residule_block (reuse : Bool) (init : String → ℚ) (store : Store) (scope : String)
    (x : Batch) (dim ks str : ℕ) (name : String) : Except String (Store × Batch) := do
  let p := (ks - 1) / 2
  let y0 := x.map (reflectPadImage p)
  let (s1, y1) ← conv2d reuse init store scope y0 dim ks str Padding.VALID (name ++ "_c1")
  let (s2, y2) ← instance_norm reuse init s1 scope y1 (name ++ "_bn1")
  let y3 := (mapBatch relu y2).map (reflectPadImage p)
  let (s3, y4) ← conv2d reuse init s2 scope y3 dim ks str Padding.VALID (name ++ "_c2")
  let (s4, y5) ← instance_norm reuse init s3 scope y4 (name ++ "_bn2")
  Except.ok (s4, zipBatch (· + ·) y5 x)

/-- One conditional link of the `generator_resnet` residual chain:
`if res_depth >= k: r_k = residule_block(r_[k-1], ...)` — when the
condition fails the running value passes through unchanged (kernel size
and stride are the fixed `3, 1` of every call site). -/
def resStep (cond : Prop) [Decidable cond] (reuse : Bool) (init : String → ℚ)
    (store : Store) (scope : String) (x : Batch) (dim : ℕ) (name : String) :
    Except String (Store × Batch) :=
  if cond then residule_block reuse init store scope x dim 3 1 name else pure (store, x)

/-- Embedding of `generator_resnet(image, options, res_depth,
output_c_dim, reuse, name)`: stem convolution, two stride-2 downsampling
stages, the `res_depth`-conditional chain of residual blocks
(`if res_depth >= 1 ... if res_depth == 9`), two stride-2 transposed
convolutions with additive encoder skips, and a tanh prediction added to
the original input and clipped to `[-1, 1]`; `name` is the full variable
scope of the call site. -/
def generator_resnet (reuse : Bool) (init : String → ℚ) (store : Store) (image : Batch)
    (gf_dim res_depth output_c_dim : ℕ) (name : String) :
    Except String (Store × Batch) := do
  let (s1, c1c) ← conv2d reuse init store name image (gf_dim * 1) 3 1 Padding.SAME "g_e1_c"
  let (s2, c1n) ← instance_norm reuse init s1 name c1c "g_e1_bn"
  let c1 := mapBatch relu c1n
  let (s3, c2c) ← conv2d reuse init s2 name c1 (gf_dim * 2) 3 2 Padding.SAME "g_e2_c"
  let (s4, c2n) ← instance_norm reuse init s3 name c2c "g_e2_bn"
  let c2 := mapBatch relu c2n
  let (s5, c3c) ← conv2d reuse init s4 name c2 (gf_dim * 4) 3 2 Padding.SAME "g_e3_c"
  let (s6, c3n) ← instance_norm reuse init s5 name c3c "g_e3_bn"
  let c3 := mapBatch relu c3n
  let (s7, rn1) ← resStep (1 ≤ res_depth) reuse init s6 name c3 (gf_dim * 4) "g_r1"
  let (s8, rn2) ← resStep (2 ≤ res_depth) reuse init s7 name rn1 (gf_dim * 4) "g_r2"
  let (s9, rn3) ← resStep (3 ≤ res_depth) reuse init s8 name rn2 (gf_dim * 4) "g_r3"
  let (s10, rn4) ← resStep (4 ≤ res_depth) reuse init s9 name rn3 (gf_dim * 4) "g_r4"
  let (s11, rn5) ← resStep (5 ≤ res_depth) reuse init s10 name rn4 (gf_dim * 4) "g_r5"
  let (s12, rn6) ← resStep (6 ≤ res_depth) reuse init s11 name rn5 (gf_dim * 4) "g_r6"
  let (s13, rn7) ← resStep (7 ≤ res_depth) reuse init s12 name rn6 (gf_dim * 4) "g_r7"
  let (s14, rn8) ← resStep (8 ≤ res_depth) reuse init s13 name rn7 (gf_dim * 4) "g_r8"
  let (s15, rn9) ← resStep (res_depth = 9) reuse init s14 name rn8 (gf_dim * 4) "g_r9"
  let (s16, d1c) ← deconv2d reuse init s15 name rn9 (gf_dim * 2) 3 2 "g_d1_dc"
  let (s17, d1n) ← instance_norm reuse init s16 name d1c "g_d1_bn"
  let d1 := zipBatch (· + ·) c2 (mapBatch relu d1n)
  let (s18, d2c) ← deconv2d reuse init s17 name d1 gf_dim 3 2 "g_d2_dc"
  let (s19, d2n) ← instance_norm reuse init s18 name d2c "g_d2_bn"
  let d2 := zipBatch (· + ·) c1 (mapBatch relu d2n)
  let (s20, predc) ← conv2d reuse init s19 name d2 output_c_dim 3 1 Padding.SAME "g_pred_c"
  let pred := mapBatch tanhQ predc
  Except.ok (s20, zipBatch (fun pv xv => clip_by_value (pv + xv) (-1) 1) pred image)

/-- Embedding of `image[:, :, :, k]` with `tf.expand_dims(-, -1)`: one-channel slice
of a batch. -/
def channelSlice (k : ℕ) (b : Batch) : Batch :=
  b.map (fun im => im.map (fun r => r.map (fun c => [c.getD k 0])))

/-- Embedding of `generator_separate_resnet` (`module.py`): the resnet generator applied
per channel under one scope, the first call with the caller's reuse flag
and the remaining two with `reuse=True`, outputs concatenated back
channel-wise. -/
def generator_separate_resnet (reuse : Bool) (init : String → ℚ) (store : Store)
    (image : Batch) (gf_dim res_depth : ℕ) (name : String) :
    Except String (Store × Batch) := do
  let (s1, image0) ← generator_resnet reuse init store (channelSlice 0 image) gf_dim res_depth 1 name
  let (s2, image1) ← generator_resnet true init s1 (channelSlice 1 image) gf_dim res_depth 1 name
  let (s3, image2) ← generator_resnet true init s2 (channelSlice 2 image) gf_dim res_depth 1 name
  let c01 ← tfConcat3 image0 image1
  let pred ← tfConcat3 c01 image2
  Except.ok (s3, pred)

/-- Embedding of `abs_criterion` (`module.py`). -/
def abs_criterion (a b : Batch) : ℚ :=
  tensorMean (zipBatch (fun x y => |x - y|) a b)

/-- Embedding of `mae_criterion` (`module.py`). -/
def mae_criterion (a b : Batch) : ℚ :=
  tensorMean (zipBatch (fun x y => (x - y) ^ 2) a b)

/-- Embedding of `sce_criterion` (`module.py`). -/
def sce_criterion (a b : Batch) : ℚ :=
  tensorMean (zipBatch sigmoid_xent a b)

/-! ## `denoise.py` `gated_denoise`

The function is a linear pipeline of three labelled phases of the source
(`# Filter`, `if FLAGS.denoise:`, `# Gate Operation`); each phase is one
definition here and `gated_denoise` is their sequence.  The summary
side effects (`tf.summary.*`, `activation_summary`) have no control-flow
significance and are omitted.  `noisy_images` / `original_images` are
only bound under `if is_training:` in the source; using `noisy_images`
outside a training build is a Python `NameError`, embedded as a build
error. -/

/-- The configuration flags read by `gated_denoise`. -/
structure Flags where
  average_filter : Bool
  mixture_of_filters : Bool
  filter_size : ℕ
  denoise : Bool
  generator_separate_channel : Bool
  res_depth : ℕ
  denoise_loss_factor : ℚ
  denoise_discrim : Bool
  denoise_gan_loss_factor : ℚ
  discrim : Bool
  discrim_loss_factor : ℚ
  ngf : ℕ
  ndf : ℕ

/-- Python dict assignment `d[k] = v` (replace or append). -/
def dictInsert : LossD → String → ℚ → LossD
  | [], k, v => [(k, v)]
  | (k0, v0) :: t, k, v =>
      if k0 = k then (k, v) :: t else (k0, v0) :: dictInsert t k v

/-- Per-example scalar multiplication `c[:, None, None, None] * image`. -/
def imageScale (c : ℚ) (im : Image) : Image :=
  mapImage (fun v => c * v) im

/-- Embedding of `tf.add` of two images of equal shape. -/
def imageAddI (a b : Image) : Image :=
  zipImage (· + ·) a b

/-- The gate blending of one example:
`confidence * raw + (1 - confidence) * candidate`. -/
def blendImage (c : ℚ) (raw cand : Image) : Image :=
  imageAddI (imageScale c raw) (imageScale (1 - c) cand)

/-- The gate blending over the batch, one confidence per example. -/
def blendBatch : List ℚ → Batch → Batch → Batch
  | c :: cs, r :: rs, f :: fs => blendImage c r f :: blendBatch cs rs fs
  | _, _, _ => []

/-- Embedding of `tf.add_n` of the four weighted candidates of the
mixture-of-filters branch, weights `probs[:, 0..3]`. -/
def mixCombine : List Chan → Batch → Batch → Batch → Batch → Batch
  | p :: ps, i :: is', f0 :: f0s, f1 :: f1s, f2 :: f2s =>
      imageAddI (imageScale (p.getD 0 0) i)
        (imageAddI (imageScale (p.getD 1 0) f0)
          (imageAddI (imageScale (p.getD 2 0) f1) (imageScale (p.getD 3 0) f2)))
        :: mixCombine ps is' f0s f1s f2s
  | _, _, _, _, _ => []

/-- Embedding of `denoise.py` lines 66-85, the `# Filter` phase: identity, a plain
average filter of the requested size, or the learned mixture of the
identity and the window-2/3/4 average filters. -/
def filterStage (init : String → ℚ) (F : Flags) (store : Store) (images : Batch) :
    Except String (Store × Batch) :=
  if F.average_filter then
    if F.mixture_of_filters then do
      let filtered0 := average_filter images 2
      let filtered1 := average_filter images 3
      let filtered2 := average_filter images 4
      let (s1, probs) ← gate false init store images F.ndf 4 "filter_gate/gate"
      Except.ok (s1, mixCombine probs images filtered0 filtered1 filtered2)
    else Except.ok (store, average_filter images F.filter_size)
  else Except.ok (store, images)

/-- Embedding of `denoise.py` lines 87-128, the `if FLAGS.denoise:` phase: run the
generator on the filtered candidate; in training accumulate the
similarity loss `g_loss` and, when `denoise_discrim` is set, the
channel-wise concatenations, the two discriminator passes (fresh and
reused) and the GAN loss pair.  Outside training, `denoise_discrim`
reaches the unbound `noisy_images` (Python `NameError`).  Line 100
concatenates `noisy_images` with the full `denoised_images` batch. -/
def denoiseStage (init : String → ℚ) (F : Flags) (store : Store)
    (images filtered : Batch) (is_training : Bool) (noisy_batch_size : ℕ)
    (losses : LossD) : Except String (Store × Batch × LossD) :=
  if F.denoise then do
    let (s1, denoised) ← if F.generator_separate_channel then
        generator_separate_resnet false init store filtered F.ngf F.res_depth
          "denoise/generator"
      else
        generator_resnet false init store filtered F.ngf F.res_depth 3
          "denoise/generator"
    if is_training then do
      let denoise_sim_loss :=
        abs_criterion (denoised.take noisy_batch_size) (images.drop noisy_batch_size)
      let g0 := F.denoise_loss_factor * denoise_sim_loss
      let l1 := dictInsert losses "g_loss" g0
      if F.denoise_discrim then do
        let noisy_and_denoised ← tfConcat3 (images.take noisy_batch_size) denoised
        let (s2, d_denoised) ←
          discriminator false init s1 noisy_and_denoised F.ndf 3 1 "denoise/discriminator"
        let noisy_and_original ←
          tfConcat3 (images.take noisy_batch_size) (images.drop noisy_batch_size)
        let (s3, d_original) ←
          discriminator true init s2 noisy_and_original F.ndf 3 1 "denoise/discriminator"
        let g_gan_loss := mae_criterion d_denoised (onesLike d_denoised)
        let g1 := g0 + F.denoise_gan_loss_factor * g_gan_loss
        let l2 := dictInsert l1 "g_loss" g1
        let d_loss_real := mae_criterion d_original (onesLike d_original)
        let d_loss_fake := mae_criterion d_denoised (zerosLike d_denoised)
        let d_loss := F.denoise_gan_loss_factor * (d_loss_real + d_loss_fake) / 2
        let l3 := dictInsert l2 "d_loss" d_loss
        Except.ok (s3, denoised, l3)
      else Except.ok (s1, denoised, l1)
    else
      if F.denoise_discrim then
        Except.error "NameError: name noisy_images is not defined"
      else Except.ok (s1, denoised, losses)
  else Except.ok (store, filtered, losses)

/-- Embedding of `denoise.py` lines 131-151, the `# Gate Operation` phase: a fresh
discriminator under scope `input_discrim` on the raw batch; in training
the sigmoid cross-entropy gate loss over the clean half (label 1) and
noisy half (label 0); then the per-example sigmoid of the mean-pooled
logits blends the raw batch with the candidate. -/
def gateStage (init : String → ℚ) (F : Flags) (store : Store)
    (images filtered : Batch) (is_training : Bool) (noisy_batch_size : ℕ)
    (losses : LossD) : Except String (Store × Batch × LossD) :=
  if F.discrim then do
    let (s1, d_in_logits) ←
      discriminator false init store images F.ndf 3 1 "input_discrim/discriminator"
    let losses2 :=
      if is_training then
        let d_in_loss_real := sce_criterion (d_in_logits.drop noisy_batch_size)
          (onesLike (d_in_logits.drop noisy_batch_size))
        let d_in_loss_fake := sce_criterion (d_in_logits.take noisy_batch_size)
          (zerosLike (d_in_logits.take noisy_batch_size))
        dictInsert losses "d_in_loss"
          (F.discrim_loss_factor * (d_in_loss_real + d_in_loss_fake) / 2)
      else losses
    let d_in_sigmoid := d_in_logits.map (fun im => sigmoidQ (imageMean im))
    Except.ok (s1, blendBatch d_in_sigmoid images filtered, losses2)
  else Except.ok (store, filtered, losses)

/-- Embedding of `gated_denoise(images, FLAGS, is_training,
noisy_batch_size)` (`denoise.py`): the three phases in sequence, returning the blended
batch and the losses dictionary (summaries omitted). -/
def gated_denoise (init : String → ℚ) (F : Flags) (images : Batch)
    (is_training : Bool) (noisy_batch_size : ℕ) (store : Store) :
    Except String (Store × Batch × LossD) := do
  let (s1, filtered) ← filterStage init F store images
  let (s2, filtered2, l1) ←
    denoiseStage init F s1 images filtered is_training noisy_batch_size []
  gateStage init F s2 images filtered2 is_training noisy_batch_size l1

/-- Full shape of an image: per row, the channel count of each pixel. -/
def shapeOfI (im : Image) : List (List ℕ) :=
  im.map (fun r => r.map List.length)

/-- One scalar entry of an image (0 outside the shape). -/
def entryI (im : Image) (i j k : ℕ) : ℚ :=
  ((im.getD i []).getD j []).getD k 0

/-! ## Parameter creation and reuse (`tf.variable_scope` discipline) -/

/-- Store extension: every binding visible in `s` is still visible,
with the same value, in `s2`. -/
def preserves (s s2 : Store) : Prop :=
  ∀ n v, lookupStore s n = some v → lookupStore s2 n = some v

/-- The variables `discriminator` creates under scope `name`, most
recent first (the order of the store after a fresh build). -/
def discrimVarNames (name : String) : List String :=
  [name ++ "/" ++ "d_h3_pred" ++ "/b", name ++ "/" ++ "d_h3_pred" ++ "/w",
   name ++ "/" ++ "d_bn2" ++ "/offset", name ++ "/" ++ "d_bn2" ++ "/scale",
   name ++ "/" ++ "d_h2_conv" ++ "/b", name ++ "/" ++ "d_h2_conv" ++ "/w",
   name ++ "/" ++ "d_bn1" ++ "/offset", name ++ "/" ++ "d_bn1" ++ "/scale",
   name ++ "/" ++ "d_h1_conv" ++ "/b", name ++ "/" ++ "d_h1_conv" ++ "/w",
   name ++ "/" ++ "d_h0_conv" ++ "/b", name ++ "/" ++ "d_h0_conv" ++ "/w"]

/-! ## Theorems -/

theorem poolOut_one (n : ℕ) : poolOut n 1 = n := by
  simp [poolOut]

theorem avgPoolImage_dims_stride_one (im : Image) (kh kw : ℕ) :
    imgDims (avgPoolImage im kh kw 1 1) = imgDims im := by
  rcases im with _ | ⟨r, rs⟩
  · simp [avgPoolImage, imgDims, poolOut]
  · simp only [avgPoolImage, imgDims, Prod.mk.injEq]
    constructor
    · simp [poolOut_one]
    · simp only [List.length_cons, poolOut_one, List.headD_cons,
        List.range_succ_eq_map, List.map_cons, List.length_map, List.length_range]

/-- Window `i` of a stride-1 pool contains the center index `i` itself. -/
theorem poolWindow_mem_self (n k i : ℕ) (hk : 1 ≤ k) (hi : i < n) :
    i ∈ poolWindow n k 1 i := by
  have hpb : poolPadBefore n k 1 < k := by
    simp only [poolPadBefore, poolOut_one]
    omega
  simp only [poolWindow, List.mem_filterMap]
  refine ⟨poolPadBefore n k 1, List.mem_range.mpr hpb, ?_⟩
  have h1 : poolPadBefore n k 1 ≤ i * 1 + poolPadBefore n k 1 := by omega
  have h2 : i * 1 + poolPadBefore n k 1 - poolPadBefore n k 1 < n := by omega
  rw [if_pos ⟨h1, h2⟩]
  congr 1
  omega

theorem poolWindow_lt (n k s i : ℕ) : ∀ x ∈ poolWindow n k s i, x < n := by
  intro x hx
  simp only [poolWindow, List.mem_filterMap] at hx
  obtain ⟨d, _, hd⟩ := hx
  by_cases hc : poolPadBefore n k s ≤ i * s + d ∧ i * s + d - poolPadBefore n k s < n
  · rw [if_pos hc] at hd
    cases hd
    exact hc.2
  · rw [if_neg hc] at hd
    cases hd

theorem getD_replicate_of_lt {α : Type} (n i : ℕ) (a d : α) (h : i < n) :
    (List.replicate n a).getD i d = a := by
  induction n generalizing i with
  | zero => omega
  | succ m ih =>
    cases i with
    | zero => rfl
    | succ j =>
      simp only [List.replicate_succ, List.getD_cons_succ]
      exact ih j (by omega)

theorem chanAdd_zero_zero (c : ℕ) :
    chanAdd (List.replicate c 0) (List.replicate c 0) = List.replicate c 0 := by
  induction c with
  | zero => rfl
  | succ m ih =>
    simp only [chanAdd, List.replicate_succ, List.zipWith_cons_cons, add_zero]
    simp only [chanAdd] at ih
    rw [ih]

theorem chanAvg_all_zero (c : ℕ) (l : List Chan) (hne : l ≠ [])
    (hall : ∀ p ∈ l, p = List.replicate c 0) : chanAvg l = List.replicate c 0 := by
  rcases l with _ | ⟨p, ps⟩
  · exact absurd rfl hne
  · have hfold : ∀ (qs : List Chan) (acc : Chan), acc = List.replicate c 0 →
        (∀ q ∈ qs, q = List.replicate c 0) → qs.foldl chanAdd acc = List.replicate c 0 := by
      intro qs
      induction qs with
      | nil => intro acc ha _; simpa using ha
      | cons q qt ih =>
        intro acc ha hq
        simp only [List.foldl_cons]
        refine ih (chanAdd acc q) ?_ (fun x hx => hq x (List.mem_cons_of_mem _ hx))
        rw [ha, hq q (List.mem_cons_self _ _)]
        exact chanAdd_zero_zero c
    simp only [chanAvg]
    rw [hfold ps p (hall p (List.mem_cons_self _ _))
      (fun x hx => hall x (List.mem_cons_of_mem _ hx))]
    simp [List.map_replicate]

theorem avgPoolImage_zeroImage (h w c fs : ℕ) (hfs : 1 ≤ fs) :
    avgPoolImage (zeroImage h w c) fs fs 1 1 = zeroImage h w c := by
  rcases h with _ | m
  · simp [avgPoolImage, zeroImage, poolOut]
  · have hlen : (zeroImage (m + 1) w c).length = m + 1 := by
      simp [zeroImage]
    have hhead : (zeroImage (m + 1) w c).headD [] = List.replicate w (List.replicate c 0) := by
      simp [zeroImage, List.replicate_succ]
    simp only [avgPoolImage, hlen, hhead, List.length_replicate, poolOut_one]
    have hpix : ∀ i < m + 1, ∀ j < w,
        chanAvg ((poolWindow (m + 1) fs 1 i).flatMap (fun r =>
          (poolWindow w fs 1 j).map (fun cc =>
            (((zeroImage (m + 1) w c).getD r []).getD cc [])))) = List.replicate c 0 := by
      intro i hi j hj
      refine chanAvg_all_zero c _ ?_ ?_
      · have hmem : (List.replicate c 0 : Chan) ∈
            (poolWindow (m + 1) fs 1 i).flatMap (fun r =>
              (poolWindow w fs 1 j).map (fun cc =>
                (((zeroImage (m + 1) w c).getD r []).getD cc []))) := by
          refine List.mem_flatMap.mpr ⟨i, poolWindow_mem_self _ _ _ hfs hi, ?_⟩
          refine List.mem_map.mpr ⟨j, poolWindow_mem_self _ _ _ hfs hj, ?_⟩
          rw [show (zeroImage (m + 1) w c).getD i [] = List.replicate w (List.replicate c 0) from
            getD_replicate_of_lt _ _ _ _ hi]
          exact getD_replicate_of_lt _ _ _ _ hj
        intro hempty
        rw [hempty] at hmem
        exact (List.not_mem_nil _) hmem
      · intro p hp
        obtain ⟨r, hr, hp2⟩ := List.mem_flatMap.mp hp
        obtain ⟨cc, hcc, hp3⟩ := List.mem_map.mp hp2
        have hrlt := poolWindow_lt _ _ _ _ r hr
        have hcclt := poolWindow_lt _ _ _ _ cc hcc
        rw [show (zeroImage (m + 1) w c).getD r [] = List.replicate w (List.replicate c 0) from
          getD_replicate_of_lt _ _ _ _ hrlt] at hp3
        rw [getD_replicate_of_lt _ _ _ _ hcclt] at hp3
        exact hp3.symm
    have : ∀ x ∈ (List.range (m + 1)).map (fun i =>
        (List.range w).map (fun j =>
          chanAvg ((poolWindow (m + 1) fs 1 i).flatMap (fun r =>
            (poolWindow w fs 1 j).map (fun cc =>
              (((zeroImage (m + 1) w c).getD r []).getD cc [])))))),
        x = List.replicate w (List.replicate c 0) := by
      intro x hx
      obtain ⟨i, hi, hx2⟩ := List.mem_map.mp hx
      have hilt := List.mem_range.mp hi
      rw [← hx2]
      have hall : ∀ y ∈ (List.range w).map (fun j =>
          chanAvg ((poolWindow (m + 1) fs 1 i).flatMap (fun r =>
            (poolWindow w fs 1 j).map (fun cc =>
              (((zeroImage (m + 1) w c).getD r []).getD cc []))))),
          y = List.replicate c 0 := by
        intro y hy
        obtain ⟨j, hj, hy2⟩ := List.mem_map.mp hy
        rw [← hy2]
        exact hpix i hilt j (List.mem_range.mp hj)
      exact List.eq_replicate_iff.mpr ⟨by simp, hall⟩
    rw [show zeroImage (m + 1) w c =
      List.replicate (m + 1) (List.replicate w (List.replicate c 0)) from rfl]
    exact List.eq_replicate_iff.mpr ⟨by simp, this⟩

/-- C1, counterexample: on a `[1, 4, 4, 1]` batch with requested window 2 the
filter's output keeps the `4 × 4` spatial dimensions; the claimed
division of the spatial dimensions by 4 would give `1 × 1`. -/
theorem C1_stride4_counterexample :
    (zeroBatch 1 4 4 1).map imgDims = [(4, 4)] ∧
    (average_filter (zeroBatch 1 4 4 1) 2).map imgDims = [(4, 4)] ∧
    ((4 : ℕ), (4 : ℕ)) ≠ ((4 / 4 : ℕ), (4 / 4 : ℕ)) := by
  decide

/-- C1 (amended): for every image batch and every requested window size, the
spatial filter computes a box average over a `window × window`
neighborhood with stride fixed at 1 (the Python strides expression
`4*[1]` is the four-element list `[1, 1, 1, 1]`), so its output's spatial
dimensions equal the input's: the filter does not change spatial
resolution, regardless of the requested window size.  In particular it
is averaging (a box average of an all-zero batch is the batch itself). -/
theorem C1_average_filter_stride_one :
    (∀ (image : Batch) (filter_size : ℕ),
        (average_filter image filter_size).map imgDims = image.map imgDims) ∧
    (∀ n h w c filter_size, 1 ≤ filter_size →
        average_filter (zeroBatch n h w c) filter_size = zeroBatch n h w c) := by
  constructor
  · intro image filter_size
    simp only [average_filter, avg_pool, List.map_map]
    refine List.map_congr_left ?_
    intro im _
    have h1 : ([1, filter_size, filter_size, 1] : List ℕ).getD 1 1 = filter_size := rfl
    have h2 : ([1, filter_size, filter_size, 1] : List ℕ).getD 2 1 = filter_size := rfl
    have h3 : (List.replicate 4 1 : List ℕ).getD 1 1 = 1 := rfl
    have h4 : (List.replicate 4 1 : List ℕ).getD 2 1 = 1 := rfl
    simp only [Function.comp, h1, h2, h3, h4]
    exact avgPoolImage_dims_stride_one im filter_size filter_size
  · intro n h w c filter_size hfs
    simp only [average_filter, avg_pool, zeroBatch, List.map_replicate]
    congr 1
    exact avgPoolImage_zeroImage h w c filter_size hfs

/-- C1 witness: the amended theorem at a concrete input. -/
theorem C1_stride_one_witness :
    average_filter (zeroBatch 1 4 8 3) 3 = zeroBatch 1 4 8 3 :=
  C1_average_filter_stride_one.2 1 4 8 3 3 (by decide)

theorem mem_zipWith3 {α β γ δ : Type} (f : α → β → γ → δ) :
    ∀ (as : List α) (bs : List β) (cs : List γ) (y : δ),
      y ∈ zipWith3 f as bs cs → ∃ a b c, y = f a b c := by
  intro as
  induction as with
  | nil => intro bs cs y hy; cases hy
  | cons a at' ih =>
    intro bs cs y hy
    rcases bs with _ | ⟨b, bt⟩
    · cases hy
    · rcases cs with _ | ⟨c, ct⟩
      · cases hy
      · rcases List.mem_cons.mp hy with h | h
        · exact ⟨a, b, c, h⟩
        · exact ih bt ct y h

theorem batchVals_zip3Batch (f : ℚ → ℚ → ℚ → ℚ) (P : ℚ → Prop)
    (hP : ∀ x u v, P (f x u v)) (a b c : Batch) :
    ∀ y ∈ batchVals (zip3Batch f a b c), P y := by
  intro y hy
  simp only [batchVals, List.mem_flatMap] at hy
  obtain ⟨im, him, hy⟩ := hy
  obtain ⟨ia, ib, ic, him'⟩ := mem_zipWith3 _ a b c im him
  subst him'
  simp only [imageVals, List.mem_flatMap] at hy
  obtain ⟨row, hrow, hy⟩ := hy
  obtain ⟨ra, rb, rc, hrow'⟩ := mem_zipWith3 _ ia ib ic row hrow
  subst hrow'
  obtain ⟨pix, hpix, hy⟩ := hy
  obtain ⟨ca, cb, cc, hpix'⟩ := mem_zipWith3 _ ra rb rc pix hpix
  subst hpix'
  obtain ⟨x, u, v, hy'⟩ := mem_zipWith3 _ ca cb cc y hy
  rw [hy']
  exact hP x u v

theorem clip_mem_unit (v : ℚ) : -1 ≤ clip_by_value v (-1) 1 ∧ clip_by_value v (-1) 1 ≤ 1 := by
  unfold clip_by_value
  constructor
  · exact le_min (le_max_right v (-1)) (by norm_num)
  · exact min_le_right _ _

/-- C7: for every input image batch with values in `[-1, 1]` and every
ratio in `[0, 1]`, the salt-pepper injector's output values lie in
`[-1, 1]`; each kept pixel (keep-draw at least `ratio`) passes through
unchanged — the `[-1,1] → [0,1]` rescale before blending and the rescale
back after are an exact round-trip on kept pixels — and each replaced
pixel (keep-draw below `ratio`) takes the fresh uniform draw `v` in
`[0, 1)` rescaled to `[-1, 1]`. -/
theorem C7_salt_pepper_roundtrip ( ratio : ℚ) (image u1 u2 : Batch)
    (hr0 : 0 ≤ ratio) (hr1 : ratio ≤ 1) :
    (∀ y ∈ batchVals (get_salt_pepper_noise_image image u1 u2 ratio), -1 ≤ y ∧ y ≤ 1) ∧
    (∀ x u v : ℚ, -1 ≤ x → x ≤ 1 → 0 ≤ u → u < 1 → ratio ≤ u →
      saltPepperPixel x u v ratio = x) ∧
    (∀ x u v : ℚ, 0 ≤ u → u < ratio → 0 ≤ v → v < 1 →
      saltPepperPixel x u v ratio = v * 2 - 1) := by
  refine ⟨?_, ?_, ?_⟩
  · exact batchVals_zip3Batch _ _ (fun x u v => clip_mem_unit _) image u1 u2
  · intro x u v hx0 hx1 hu0 hu1 hur
    have hb : ⌊(1 - ratio) + u⌋ = (1 : ℤ) := by
      rw [Int.floor_eq_iff]
      push_cast
      constructor <;> linarith
    simp only [saltPepperPixel, hb]
    have harith : ((1 : ℤ) : ℚ) * ((x + 1) / 2) + (1 - ((1 : ℤ) : ℚ)) * v = (x + 1) / 2 := by
      push_cast
      ring
    rw [harith]
    have harith2 : (x + 1) / 2 * 2 - 1 = x := by ring
    rw [harith2]
    unfold clip_by_value
    rw [max_eq_left hx0, min_eq_left hx1]
  · intro x u v hu0 hur hv0 hv1
    have hb : ⌊(1 - ratio) + u⌋ = (0 : ℤ) := by
      rw [Int.floor_eq_iff]
      push_cast
      constructor <;> linarith
    simp only [saltPepperPixel, hb]
    have harith : (((0 : ℤ) : ℚ) * ((x + 1) / 2) + (1 - ((0 : ℤ) : ℚ)) * v) * 2 - 1 =
        v * 2 - 1 := by
      push_cast
      ring
    rw [harith]
    unfold clip_by_value
    rw [max_eq_left (by linarith), min_eq_left (by linarith)]

/-- C7 witness: the theorem at a concrete batch, a kept pixel and a
replaced pixel. -/
theorem C7_salt_pepper_witness :
    (∀ y ∈ batchVals (get_salt_pepper_noise_image [[[[0]]]] [[[[(3 : ℚ)/4]]]]
        [[[[(1 : ℚ)/4]]]] (1/2)), -1 ≤ y ∧ y ≤ 1) ∧
    saltPepperPixel 0 (3/4) (1/4) (1/2) = 0 ∧
    saltPepperPixel 0 (1/4) (1/4) (1/2) = (1/4) * 2 - 1 := by
  refine ⟨(C7_salt_pepper_roundtrip (1/2) [[[[0]]]] [[[[(3 : ℚ)/4]]]] [[[[(1 : ℚ)/4]]]]
      (by norm_num) (by norm_num)).1, ?_, ?_⟩
  · exact (C7_salt_pepper_roundtrip (1/2) [] [] [] (by norm_num) (by norm_num)).2.1
      0 (3/4) (1/4) (by norm_num) (by norm_num) (by norm_num) (by norm_num) (by norm_num)
  · exact (C7_salt_pepper_roundtrip (1/2) [] [] [] (by norm_num) (by norm_num)).2.2
      0 (1/4) (1/4) (by norm_num) (by norm_num) (by norm_num) (by norm_num)

/-- C6: contrary to the injector contract, the snow injector produces no
image batch at all: for every input image and sparsity it returns no
value (the Python function falls off the end and returns `None`), rather
than a noisy same-shape batch with values clipped to `[-1, 1]`. -/
theorem C6_snow_mode_returns_no_value :
    get_snow_image (zeroBatch 1 2 2 3) (1/20) = none ∧
    ∀ (image : Batch) (sparsity : ℚ), get_snow_image image sparsity = none := by
  exact ⟨rfl, fun _ _ => rfl⟩

/-! ## Pipeline theorems -/

/-- C10: with average filtering, denoising and input gating all
disabled, `gated_denoise` is the identity on its image batch and returns
an empty losses dictionary (for either training mode, any
`noisy_batch_size`, any store). -/
theorem C10_all_disabled_identity (F : Flags)
    (hf : F.average_filter = false) (hd : F.denoise = false) (hg : F.discrim = false)
    (init : String → ℚ) (images : Batch) (is_training : Bool)
    (noisy_batch_size : ℕ) (store : Store) :
    gated_denoise init F images is_training noisy_batch_size store =
      Except.ok (store, images, ([] : LossD)) := by
  unfold gated_denoise filterStage denoiseStage gateStage
  rw [hf, hd, hg]
  simp [Bind.bind, Except.bind]

/-- C10 witness: the theorem at a concrete flag record and batch. -/
theorem C10_identity_witness :
    gated_denoise (fun _ => 1/2) ⟨false, false, 3, false, false, 0, 1, false, 1, false, 1, 1, 1⟩
      [zeroImage 4 4 1, zeroImage 4 4 1] false 1 [] =
      Except.ok (([] : Store), [zeroImage 4 4 1, zeroImage 4 4 1], ([] : LossD)) :=
  C10_all_disabled_identity ⟨false, false, 3, false, false, 0, 1, false, 1, false, 1, 1, 1⟩
    rfl rfl rfl (fun _ => 1/2) [zeroImage 4 4 1, zeroImage 4 4 1] false 1 []

/-- A bind whose continuation always errors never yields `ok`. -/
theorem except_bind_error_ne_ok {α β : Type} (E : Except String α) (msg : String) (r : β) :
    Except.bind E (fun _ => (Except.error msg : Except String β)) ≠ Except.ok r := by
  cases E <;> simp [Except.bind]

/-- In an evaluation build (`is_training = false`) the denoise phase
passes the incoming losses dictionary through untouched. -/
theorem denoiseStage_eval_losses (init : String → ℚ) (F : Flags) (store : Store)
    (images filtered : Batch) (nbs : ℕ) (l : LossD) (s' : Store) (f2 : Batch) (L : LossD)
    (h : denoiseStage init F store images filtered false nbs l = Except.ok (s', f2, L)) :
    L = l := by
  unfold denoiseStage at h
  by_cases hd : F.denoise = true
  · rw [if_pos hd] at h
    simp only [Bind.bind, Bool.false_eq_true, if_false] at h
    by_cases hdd : F.denoise_discrim = true
    · simp only [hdd, if_true] at h
      rcases Bool.eq_false_or_eq_true F.generator_separate_channel with hsep | hsep <;>
          rw [hsep] at h <;>
          simp only [Bool.false_eq_true, if_false, if_true] at h
      · exact absurd h (except_bind_error_ne_ok _ _ _)
      · exact absurd h (except_bind_error_ne_ok _ _ _)
    · simp only [if_neg hdd] at h
      rcases Bool.eq_false_or_eq_true F.generator_separate_channel with hsep | hsep <;>
          rw [hsep] at h <;>
          simp only [Bool.false_eq_true, if_false, if_true] at h
      · cases hgen : generator_separate_resnet false init store filtered F.ngf F.res_depth
            "denoise/generator" with
        | error m => rw [hgen] at h; simp [Except.bind] at h
        | ok v =>
          rw [hgen] at h
          simp only [Except.bind, Except.ok.injEq, Prod.mk.injEq] at h
          exact h.2.2.symm
      · cases hgen : generator_resnet false init store filtered F.ngf F.res_depth 3
            "denoise/generator" with
        | error m => rw [hgen] at h; simp [Except.bind] at h
        | ok v =>
          rw [hgen] at h
          simp only [Except.bind, Except.ok.injEq, Prod.mk.injEq] at h
          exact h.2.2.symm
  · rw [if_neg hd] at h
    simp only [Except.ok.injEq, Prod.mk.injEq] at h
    exact h.2.2.symm

/-- In an evaluation build the gate phase passes the incoming losses
dictionary through untouched. -/
theorem gateStage_eval_losses (init : String → ℚ) (F : Flags) (store : Store)
    (images filtered : Batch) (nbs : ℕ) (l : LossD) (s' : Store) (out : Batch) (L : LossD)
    (h : gateStage init F store images filtered false nbs l = Except.ok (s', out, L)) :
    L = l := by
  unfold gateStage at h
  by_cases hg : F.discrim = true
  · rw [if_pos hg] at h
    simp only [Bind.bind] at h
    cases hdis : discriminator false init store images F.ndf 3 1 "input_discrim/discriminator" with
    | error m => rw [hdis] at h; simp [Except.bind] at h
    | ok v =>
      rw [hdis] at h
      obtain ⟨s1, logits⟩ := v
      simp only [Except.bind, Bool.false_eq_true, if_false, Except.ok.injEq,
        Prod.mk.injEq] at h
      exact h.2.2.symm
  · rw [if_neg hg] at h
    simp only [Except.ok.injEq, Prod.mk.injEq] at h
    exact h.2.2.symm

/-- C9: for every flag configuration under which `gated_denoise` builds
successfully with `is_training = false`, the returned losses dictionary
is empty. -/
theorem C9_eval_losses_empty (init : String → ℚ) (F : Flags) (images : Batch)
    (nbs : ℕ) (store s' : Store) (out : Batch) (L : LossD)
    (h : gated_denoise init F images false nbs store = Except.ok (s', out, L)) :
    L = [] := by
  unfold gated_denoise at h
  simp only [Bind.bind] at h
  cases h1 : filterStage init F store images with
  | error m => rw [h1] at h; simp [Except.bind] at h
  | ok v =>
    rw [h1] at h
    obtain ⟨s1, filtered⟩ := v
    simp only [Except.bind] at h
    cases h2 : denoiseStage init F s1 images filtered false nbs [] with
    | error m => rw [h2] at h; simp at h
    | ok w =>
      rw [h2] at h
      obtain ⟨s2, f2, l1⟩ := w
      have hl1 : l1 = [] :=
        denoiseStage_eval_losses init F s1 images filtered nbs [] s2 f2 l1 h2
      subst hl1
      exact gateStage_eval_losses init F s2 images f2 nbs [] s' out L h

/-- C9 witness: a successful evaluation build with the input gate
enabled, via the theorem. -/
theorem C9_eval_losses_witness :
    ∃ s o, gated_denoise (fun _ => 1/2) ⟨false, false, 3, false, false, 0, 1, false, 1, true, 1, 1, 1⟩
      [zeroImage 4 4 1, zeroImage 4 4 1] false 1 [] = Except.ok (s, o, ([] : LossD)) := by
  have h : ∃ s o L, gated_denoise (fun _ => 1/2)
      ⟨false, false, 3, false, false, 0, 1, false, 1, true, 1, 1, 1⟩
      [zeroImage 4 4 1, zeroImage 4 4 1] false 1 [] = Except.ok (s, o, L) := ⟨_, _, _, rfl⟩
  obtain ⟨s, o, L, h⟩ := h
  have hL := C9_eval_losses_empty (fun _ => 1/2) _ _ 1 [] s o L h
  subst hL
  exact ⟨s, o, h⟩

theorem lookupStore_dictInsert (d : LossD) (k : String) (v : ℚ) :
    lookupStore (dictInsert d k v) k = some v := by
  induction d with
  | nil => simp [dictInsert, lookupStore]
  | cons p t ih =>
    obtain ⟨k0, v0⟩ := p
    by_cases hk : k0 = k
    · simp [dictInsert, hk, lookupStore]
    · simp only [dictInsert, if_neg hk, lookupStore]
      exact ih

/-- C8: with input gating enabled and `is_training = true`, every
successful build carries the input-gate discriminator loss
`discrim_loss_factor * (sce(clean half, ones) + sce(noisy half, zeros)) / 2`
computed from the fresh `input_discrim/discriminator` logits on the raw
batch; with `is_training = false` no `d_in_loss` entry is ever
produced. -/
theorem C8_input_gate_loss (init : String → ℚ) (F : Flags) (images : Batch) (nbs : ℕ)
    (store : Store) (hg : F.discrim = true) :
    (∀ s' out L, gated_denoise init F images true nbs store = Except.ok (s', out, L) →
      ∃ s1 filtered s2 f2 l1 sD logits,
        filterStage init F store images = Except.ok (s1, filtered) ∧
        denoiseStage init F s1 images filtered true nbs [] = Except.ok (s2, f2, l1) ∧
        discriminator false init s2 images F.ndf 3 1 "input_discrim/discriminator" =
          Except.ok (sD, logits) ∧
        lookupStore L "d_in_loss" = some (F.discrim_loss_factor *
          (sce_criterion (logits.drop nbs) (onesLike (logits.drop nbs)) +
           sce_criterion (logits.take nbs) (zerosLike (logits.take nbs))) / 2)) ∧
    (∀ s' out L, gated_denoise init F images false nbs store = Except.ok (s', out, L) →
      lookupStore L "d_in_loss" = none) := by
  constructor
  · intro s' out L h
    unfold gated_denoise at h
    simp only [Bind.bind] at h
    cases h1 : filterStage init F store images with
    | error m => rw [h1] at h; simp [Except.bind] at h
    | ok v =>
      rw [h1] at h
      obtain ⟨s1, filtered⟩ := v
      simp only [Except.bind] at h
      cases h2 : denoiseStage init F s1 images filtered true nbs [] with
      | error m => rw [h2] at h; simp at h
      | ok w =>
        rw [h2] at h
        obtain ⟨s2, f2, l1⟩ := w
        unfold gateStage at h
        simp only [hg, if_true, Bind.bind] at h
        cases h3 : discriminator false init s2 images F.ndf 3 1
            "input_discrim/discriminator" with
        | error m => rw [h3] at h; simp [Except.bind] at h
        | ok u =>
          rw [h3] at h
          obtain ⟨sD, logits⟩ := u
          simp only [Except.bind, if_true, Except.ok.injEq, Prod.mk.injEq] at h
          refine ⟨s1, filtered, s2, f2, l1, sD, logits, rfl, h2, h3, ?_⟩
          rw [← h.2.2]
          exact lookupStore_dictInsert l1 "d_in_loss" _
  · intro s' out L h
    unfold gated_denoise at h
    simp only [Bind.bind] at h
    cases h1 : filterStage init F store images with
    | error m => rw [h1] at h; simp [Except.bind] at h
    | ok v =>
      rw [h1] at h
      obtain ⟨s1, filtered⟩ := v
      simp only [Except.bind] at h
      cases h2 : denoiseStage init F s1 images filtered false nbs [] with
      | error m => rw [h2] at h; simp at h
      | ok w =>
        rw [h2] at h
        obtain ⟨s2, f2, l1⟩ := w
        have hl1 : l1 = [] :=
          denoiseStage_eval_losses init F s1 images filtered nbs [] s2 f2 l1 h2
        subst hl1
        have hL : L = [] :=
          gateStage_eval_losses init F s2 images f2 nbs [] s' out L h
        subst hL
        rfl

/-- C8 witness: a concrete training build with input gating enabled,
via the theorem. -/
theorem C8_input_gate_loss_witness :
    ∃ s' out L,
      gated_denoise (fun _ => 1/2)
        ⟨false, false, 3, false, false, 0, 1, false, 1, true, 1, 1, 1⟩
        [zeroImage 4 4 1, zeroImage 4 4 1] true 1 [] = Except.ok (s', out, L) ∧
      ∃ s1 filtered s2 f2 l1 sD logits,
        filterStage (fun _ => 1/2) ⟨false, false, 3, false, false, 0, 1, false, 1, true, 1, 1, 1⟩
          [] [zeroImage 4 4 1, zeroImage 4 4 1] = Except.ok (s1, filtered) ∧
        denoiseStage (fun _ => 1/2) ⟨false, false, 3, false, false, 0, 1, false, 1, true, 1, 1, 1⟩
          s1 [zeroImage 4 4 1, zeroImage 4 4 1] filtered true 1 [] = Except.ok (s2, f2, l1) ∧
        discriminator false (fun _ => 1/2) s2 [zeroImage 4 4 1, zeroImage 4 4 1] 1 3 1
          "input_discrim/discriminator" = Except.ok (sD, logits) ∧
        lookupStore L "d_in_loss" = some (1 *
          (sce_criterion (logits.drop 1) (onesLike (logits.drop 1)) +
           sce_criterion (logits.take 1) (zerosLike (logits.take 1))) / 2) := by
  have h : ∃ s o L, gated_denoise (fun _ => 1/2)
      ⟨false, false, 3, false, false, 0, 1, false, 1, true, 1, 1, 1⟩
      [zeroImage 4 4 1, zeroImage 4 4 1] true 1 [] = Except.ok (s, o, L) := ⟨_, _, _, rfl⟩
  obtain ⟨s, o, L, h⟩ := h
  exact ⟨s, o, L, h, (C8_input_gate_loss (fun _ => 1/2)
    ⟨false, false, 3, false, false, 0, 1, false, 1, true, 1, 1, 1⟩
    [zeroImage 4 4 1, zeroImage 4 4 1] 1 [] rfl).1 s o L h⟩

theorem list_getD_map {α β : Type} (f : α → β) (l : List α) (i : ℕ) (dA : α) :
    (l.map f).getD i (f dA) = f (l.getD i dA) := by
  induction l generalizing i with
  | nil => simp
  | cons a t ih =>
    cases i with
    | zero => simp
    | succ j => simpa using ih j

theorem zipWith_map_left_cancel {α : Type} (g : α → α → α) (φ ψ : α → α)
    (hpt : ∀ x y, g (φ x) (ψ y) = x) :
    ∀ (ca cb : List α), ca.length = cb.length →
      List.zipWith g (ca.map φ) (cb.map ψ) = ca := by
  intro ca
  induction ca with
  | nil => intro cb _; simp
  | cons x t ih =>
    intro cb hl
    rcases cb with _ | ⟨y, tb⟩
    · simp at hl
    · simp only [List.map_cons, List.zipWith_cons_cons, hpt]
      rw [ih tb (by simpa using hl)]

theorem zipWith_map_right_cancel {α : Type} (g : α → α → α) (φ ψ : α → α)
    (hpt : ∀ x y, g (φ x) (ψ y) = y) :
    ∀ (ca cb : List α), ca.length = cb.length →
      List.zipWith g (ca.map φ) (cb.map ψ) = cb := by
  intro ca
  induction ca with
  | nil => intro cb hl
           rcases cb with _ | ⟨y, tb⟩
           · simp
           · simp at hl
  | cons x t ih =>
    intro cb hl
    rcases cb with _ | ⟨y, tb⟩
    · simp at hl
    · simp only [List.map_cons, List.zipWith_cons_cons, hpt]
      rw [ih tb (by simpa using hl)]

theorem zipImage_maps_left (g : ℚ → ℚ → ℚ) (φ ψ : ℚ → ℚ)
    (hpt : ∀ x y, g (φ x) (ψ y) = x) :
    ∀ (a b : Image), shapeOfI a = shapeOfI b →
      zipImage g (mapImage φ a) (mapImage ψ b) = a := by
  intro a
  induction a with
  | nil => intro b hs; simp [zipImage, mapImage]
  | cons ra ta ih =>
    intro b hs
    rcases b with _ | ⟨rb, tb⟩
    · simp [shapeOfI] at hs
    · simp only [shapeOfI, List.map_cons, List.cons.injEq] at hs
      simp only [mapImage, zipImage, List.map_cons, List.zipWith_cons_cons,
        List.cons.injEq]
      constructor
      · -- row level
        have hrow : ∀ (ra rb : List Chan), ra.map List.length = rb.map List.length →
            List.zipWith (fun ca cb => List.zipWith g ca cb)
              (ra.map (fun c => c.map φ)) (rb.map (fun c => c.map ψ)) = ra := by
          intro ra
          induction ra with
          | nil => intro rb _; simp
          | cons ca ta2 ih2 =>
            intro rb hl
            rcases rb with _ | ⟨cb, tb2⟩
            · simp at hl
            · simp only [List.map_cons, List.cons.injEq] at hl
              simp only [List.map_cons, List.zipWith_cons_cons, List.cons.injEq]
              constructor
              · exact zipWith_map_left_cancel g φ ψ hpt ca cb hl.1
              · exact ih2 tb2 hl.2
        exact hrow ra rb hs.1
      · have := ih tb ?_
        · simpa [mapImage, zipImage] using this
        · exact hs.2

theorem zipImage_maps_right (g : ℚ → ℚ → ℚ) (φ ψ : ℚ → ℚ)
    (hpt : ∀ x y, g (φ x) (ψ y) = y) :
    ∀ (a b : Image), shapeOfI a = shapeOfI b →
      zipImage g (mapImage φ a) (mapImage ψ b) = b := by
  intro a
  induction a with
  | nil =>
    intro b hs
    rcases b with _ | ⟨rb, tb⟩
    · simp [zipImage, mapImage]
    · simp [shapeOfI] at hs
  | cons ra ta ih =>
    intro b hs
    rcases b with _ | ⟨rb, tb⟩
    · simp [shapeOfI] at hs
    · simp only [shapeOfI, List.map_cons, List.cons.injEq] at hs
      simp only [mapImage, zipImage, List.map_cons, List.zipWith_cons_cons,
        List.cons.injEq]
      constructor
      · have hrow : ∀ (ra rb : List Chan), ra.map List.length = rb.map List.length →
            List.zipWith (fun ca cb => List.zipWith g ca cb)
              (ra.map (fun c => c.map φ)) (rb.map (fun c => c.map ψ)) = rb := by
          intro ra
          induction ra with
          | nil =>
            intro rb hl
            rcases rb with _ | ⟨cb, tb2⟩
            · simp
            · simp at hl
          | cons ca ta2 ih2 =>
            intro rb hl
            rcases rb with _ | ⟨cb, tb2⟩
            · simp at hl
            · simp only [List.map_cons, List.cons.injEq] at hl
              simp only [List.map_cons, List.zipWith_cons_cons, List.cons.injEq]
              constructor
              · exact zipWith_map_right_cancel g φ ψ hpt ca cb hl.1
              · exact ih2 tb2 hl.2
        exact hrow ra rb hs.1
      · have := ih tb hs.2
        simpa [mapImage, zipImage] using this

theorem shapeOfI_mapImage (f : ℚ → ℚ) (im : Image) :
    shapeOfI (mapImage f im) = shapeOfI im := by
  simp [shapeOfI, mapImage, List.map_map, Function.comp]

theorem blendImage_one (r f : Image) (hs : shapeOfI r = shapeOfI f) :
    blendImage 1 r f = r := by
  unfold blendImage imageAddI imageScale
  exact zipImage_maps_left (· + ·) (fun v => 1 * v) (fun v => (1 - 1) * v)
    (fun x y => by ring) r f hs

theorem blendImage_zero (r f : Image) (hs : shapeOfI r = shapeOfI f) :
    blendImage 0 r f = f := by
  unfold blendImage imageAddI imageScale
  exact zipImage_maps_right (· + ·) (fun v => 0 * v) (fun v => (1 - 0) * v)
    (fun x y => by ring) r f hs

theorem entry_imageScale (c : ℚ) (im : Image) (i j k : ℕ) :
    entryI (imageScale c im) i j k = c * entryI im i j k := by
  unfold entryI imageScale mapImage
  have h1 : (im.map (fun r => r.map (fun cc => cc.map (fun v => c * v)))).getD i
      (([] : List Chan).map (fun cc => cc.map (fun v => c * v))) =
      (im.getD i []).map (fun cc => cc.map (fun v => c * v)) :=
    list_getD_map _ im i []
  simp only [List.map_nil] at h1
  rw [h1]
  have h2 : ((im.getD i []).map (fun cc => cc.map (fun v => c * v))).getD j
      (([] : Chan).map (fun v => c * v)) =
      ((im.getD i []).getD j []).map (fun v => c * v) :=
    list_getD_map _ (im.getD i []) j []
  simp only [List.map_nil] at h2
  rw [h2]
  have h3 : (((im.getD i []).getD j []).map (fun v => c * v)).getD k (c * 0) =
      c * ((im.getD i []).getD j []).getD k 0 :=
    list_getD_map _ (((im.getD i []).getD j [])) k 0
  simp only [mul_zero] at h3
  rw [h3]

theorem zipWith_add_getD (ca cb : List ℚ) (hl : ca.length = cb.length) (k : ℕ) :
    (List.zipWith (· + ·) ca cb).getD k 0 = ca.getD k 0 + cb.getD k 0 := by
  induction ca generalizing cb k with
  | nil =>
    rcases cb with _ | ⟨y, tb⟩
    · simp
    · simp at hl
  | cons x t ih =>
    rcases cb with _ | ⟨y, tb⟩
    · simp at hl
    · cases k with
      | zero => simp
      | succ m =>
        simp only [List.zipWith_cons_cons, List.getD_cons_succ]
        exact ih tb (by simpa using hl) m

theorem zipWith_row_add_getD (ra rb : List Chan)
    (hl : ra.map List.length = rb.map List.length) (j k : ℕ) :
    ((List.zipWith (fun ca cb => List.zipWith (· + ·) ca cb) ra rb).getD j []).getD k 0 =
      (ra.getD j []).getD k 0 + (rb.getD j []).getD k 0 := by
  induction ra generalizing rb j with
  | nil =>
    rcases rb with _ | ⟨cb, tb2⟩
    · simp
    · simp at hl
  | cons ca ta2 ih =>
    rcases rb with _ | ⟨cb, tb2⟩
    · simp at hl
    · simp only [List.map_cons, List.cons.injEq] at hl
      cases j with
      | zero =>
        simp only [List.zipWith_cons_cons, List.getD_cons_zero]
        exact zipWith_add_getD ca cb hl.1 k
      | succ m =>
        simp only [List.zipWith_cons_cons, List.getD_cons_succ]
        exact ih tb2 hl.2 m

theorem entry_imageAddI (a b : Image) (hs : shapeOfI a = shapeOfI b) (i j k : ℕ) :
    entryI (imageAddI a b) i j k = entryI a i j k + entryI b i j k := by
  unfold entryI imageAddI zipImage
  induction a generalizing b i with
  | nil =>
    rcases b with _ | ⟨rb, tb⟩
    · simp
    · simp [shapeOfI] at hs
  | cons ra ta ih =>
    rcases b with _ | ⟨rb, tb⟩
    · simp [shapeOfI] at hs
    · simp only [shapeOfI, List.map_cons, List.cons.injEq] at hs
      cases i with
      | succ m =>
        simp only [List.zipWith_cons_cons, List.getD_cons_succ]
        exact ih tb (by simp only [shapeOfI]; exact hs.2) m
      | zero =>
        simp only [List.zipWith_cons_cons, List.getD_cons_zero]
        exact zipWith_row_add_getD ra rb hs.1 j k

theorem shapeOfI_imageScale (c : ℚ) (im : Image) :
    shapeOfI (imageScale c im) = shapeOfI im :=
  shapeOfI_mapImage _ _

theorem entry_blendImage (c : ℚ) (r f : Image) (hs : shapeOfI r = shapeOfI f) (i j k : ℕ) :
    entryI (blendImage c r f) i j k = c * entryI r i j k + (1 - c) * entryI f i j k := by
  unfold blendImage
  rw [entry_imageAddI (imageScale c r) (imageScale (1 - c) f)
    (by rw [shapeOfI_imageScale, shapeOfI_imageScale]; exact hs) i j k]
  rw [entry_imageScale, entry_imageScale]

theorem convex_between (c x y : ℚ) (h0 : 0 ≤ c) (h1 : c ≤ 1) :
    min x y ≤ c * x + (1 - c) * y ∧ c * x + (1 - c) * y ≤ max x y := by
  rcases le_total x y with hxy | hxy
  · constructor
    · rw [min_eq_left hxy]; nlinarith
    · rw [max_eq_right hxy]; nlinarith
  · constructor
    · rw [min_eq_right hxy]; nlinarith
    · rw [max_eq_left hxy]; nlinarith

theorem sigmoidQ_range (x : ℚ) : 0 < sigmoidQ x ∧ sigmoidQ x < 1 := by
  have hpos : (0 : ℚ) < 2 * (1 + |x|) := by positivity
  have hlow : -(1/2) < x / (2 * (1 + |x|)) := by
    rw [neg_lt, ← neg_div, div_lt_iff hpos]
    have h := neg_abs_le x
    have h2 := abs_nonneg x
    nlinarith
  have hhigh : x / (2 * (1 + |x|)) < 1/2 := by
    rw [div_lt_iff hpos]
    have h := le_abs_self x
    have h2 := abs_nonneg x
    nlinarith
  unfold sigmoidQ
  constructor <;> linarith

/-- C3: when input gating is enabled, every successful build's output is
the per-example blend `confidence * raw + (1 - confidence) * candidate`,
where the candidate is the denoise phase's result (denoised if denoising
ran, else filtered, else raw) and the confidence is the sigmoid of the
mean-pooled input-gate discriminator logits; blending with confidence 1
returns the raw image exactly, with confidence 0 the candidate exactly,
and for confidence in `[0, 1]` every output pixel lies between the two
candidates' corresponding pixels (the computed sigmoid confidence always
lies strictly between 0 and 1). -/
theorem C3_gate_blending (init : String → ℚ) (F : Flags) (images : Batch)
    (is_training : Bool) (nbs : ℕ) (store s' : Store) (out : Batch) (L : LossD)
    (hg : F.discrim = true)
    (h : gated_denoise init F images is_training nbs store = Except.ok (s', out, L)) :
    (∃ s1 filtered s2 f2 l1 sD logits,
        filterStage init F store images = Except.ok (s1, filtered) ∧
        denoiseStage init F s1 images filtered is_training nbs [] = Except.ok (s2, f2, l1) ∧
        discriminator false init s2 images F.ndf 3 1 "input_discrim/discriminator" =
          Except.ok (sD, logits) ∧
        out = blendBatch (logits.map (fun im => sigmoidQ (imageMean im))) images f2) ∧
    (∀ r f : Image, shapeOfI r = shapeOfI f → blendImage 1 r f = r) ∧
    (∀ r f : Image, shapeOfI r = shapeOfI f → blendImage 0 r f = f) ∧
    (∀ (c : ℚ) (r f : Image) (i j k : ℕ), 0 ≤ c → c ≤ 1 → shapeOfI r = shapeOfI f →
        min (entryI r i j k) (entryI f i j k) ≤ entryI (blendImage c r f) i j k ∧
        entryI (blendImage c r f) i j k ≤ max (entryI r i j k) (entryI f i j k)) ∧
    (∀ x : ℚ, 0 < sigmoidQ x ∧ sigmoidQ x < 1) := by
  refine ⟨?_, fun r f hs => blendImage_one r f hs, fun r f hs => blendImage_zero r f hs,
    fun c r f i j k hc0 hc1 hs => ?_, sigmoidQ_range⟩
  · unfold gated_denoise at h
    simp only [Bind.bind] at h
    cases h1 : filterStage init F store images with
    | error m => rw [h1] at h; simp [Except.bind] at h
    | ok v =>
      rw [h1] at h
      obtain ⟨s1, filtered⟩ := v
      simp only [Except.bind] at h
      cases h2 : denoiseStage init F s1 images filtered is_training nbs [] with
      | error m => rw [h2] at h; simp at h
      | ok w =>
        rw [h2] at h
        obtain ⟨s2, f2, l1⟩ := w
        unfold gateStage at h
        simp only [hg, if_true, Bind.bind] at h
        cases h3 : discriminator false init s2 images F.ndf 3 1
            "input_discrim/discriminator" with
        | error m => rw [h3] at h; simp [Except.bind] at h
        | ok u =>
          rw [h3] at h
          obtain ⟨sD, logits⟩ := u
          simp only [Except.bind, Except.ok.injEq, Prod.mk.injEq] at h
          exact ⟨s1, filtered, s2, f2, l1, sD, logits, rfl, h2, h3, h.2.1.symm⟩
  · rw [entry_blendImage c r f hs i j k]
    exact convex_between c (entryI r i j k) (entryI f i j k) hc0 hc1

/-- C3 witness: a concrete gated build, via the theorem. -/
theorem C3_gate_blending_witness :
    ∃ s' out L,
      gated_denoise (fun _ => 1/2)
        ⟨false, false, 3, false, false, 0, 1, false, 1, true, 1, 1, 1⟩
        [zeroImage 4 4 1, zeroImage 4 4 1] false 1 [] = Except.ok (s', out, L) ∧
      ∃ s1 filtered s2 f2 l1 sD logits,
        filterStage (fun _ => 1/2) ⟨false, false, 3, false, false, 0, 1, false, 1, true, 1, 1, 1⟩
          [] [zeroImage 4 4 1, zeroImage 4 4 1] = Except.ok (s1, filtered) ∧
        denoiseStage (fun _ => 1/2) ⟨false, false, 3, false, false, 0, 1, false, 1, true, 1, 1, 1⟩
          s1 [zeroImage 4 4 1, zeroImage 4 4 1] filtered false 1 [] = Except.ok (s2, f2, l1) ∧
        discriminator false (fun _ => 1/2) s2 [zeroImage 4 4 1, zeroImage 4 4 1] 1 3 1
          "input_discrim/discriminator" = Except.ok (sD, logits) ∧
        out = blendBatch (logits.map (fun im => sigmoidQ (imageMean im)))
          [zeroImage 4 4 1, zeroImage 4 4 1] f2 := by
  have h : ∃ s o L, gated_denoise (fun _ => 1/2)
      ⟨false, false, 3, false, false, 0, 1, false, 1, true, 1, 1, 1⟩
      [zeroImage 4 4 1, zeroImage 4 4 1] false 1 [] = Except.ok (s, o, L) := ⟨_, _, _, rfl⟩
  obtain ⟨s, o, L, h⟩ := h
  exact ⟨s, o, L, h, (C3_gate_blending (fun _ => 1/2)
    ⟨false, false, 3, false, false, 0, 1, false, 1, true, 1, 1, 1⟩
    [zeroImage 4 4 1, zeroImage 4 4 1] false 1 [] s o L rfl h).1⟩

/-- C4: on the doubled training batch (noisy half of size 1, clean half
of size 1), a training build with denoising and its adversarial variant
enabled fails: `denoise.py` line 100 concatenates the noisy half (1
example) with the full refined batch (2 examples) channel-wise, a batch
dimension mismatch.  Restricting the refined batch to its noisy half —
as the claim states and as `backup/add_noise.py` line 344 does — makes
the same concatenation well-formed. -/
theorem C4_adversary_concat_shape_error :
    gated_denoise (fun _ => 1/2)
      ⟨false, false, 3, true, false, 0, 1, true, 1, false, 1, 1, 1⟩
      [zeroImage 4 4 1, zeroImage 4 4 1] true 1 [] =
      Except.error "ConcatOp : Dimensions of inputs should match" ∧
    ∃ sG denoised,
      generator_resnet false (fun _ => 1/2) [] [zeroImage 4 4 1, zeroImage 4 4 1] 1 0 3
        "denoise/generator" = Except.ok (sG, denoised) ∧
      tfConcat3 ([zeroImage 4 4 1, zeroImage 4 4 1].take 1) denoised =
        Except.error "ConcatOp : Dimensions of inputs should match" ∧
      ∃ paired, tfConcat3 ([zeroImage 4 4 1, zeroImage 4 4 1].take 1) (denoised.take 1) =
        Except.ok paired :=
  ⟨rfl, _, _, rfl, rfl, _, rfl⟩

theorem preserves_trans {a b c : Store} (h1 : preserves a b) (h2 : preserves b c) :
    preserves a c :=
  fun n v h => h2 n v (h1 n v h)

theorem lookupStore_head (s : Store) (n : String) (v : ℚ) :
    lookupStore ((n, v) :: s) n = some v := by
  simp [lookupStore]

theorem lookup_after_fresh (s : Store) (n m : String) (v w : ℚ)
    (hm : lookupStore s m = some w) (hn : lookupStore s n = none) :
    lookupStore ((n, v) :: s) m = some w := by
  simp only [lookupStore]
  by_cases e : n = m
  · subst e
    rw [hn] at hm
    cases hm
  · rw [if_neg e]
    exact hm

theorem preserves_cons (s : Store) (n : String) (v : ℚ)
    (h : lookupStore s n = none) : preserves s ((n, v) :: s) := by
  intro m w hm
  exact lookup_after_fresh s n m v w hm h

theorem getVar_false_ok (init : String → ℚ) (s : Store) (n : String) (s' : Store) (v : ℚ)
    (h : get_variable false init s n = Except.ok (s', v)) :
    lookupStore s n = none ∧ s' = (n, init n) :: s ∧ v = init n := by
  unfold get_variable at h
  cases hl : lookupStore s n with
  | some w => rw [hl] at h; simp at h
  | none =>
    rw [hl] at h
    simp only [Bool.false_eq_true, if_false, Except.ok.injEq, Prod.mk.injEq] at h
    exact ⟨rfl, h.1.symm, h.2.symm⟩

theorem getVar_true_of_lookup (init : String → ℚ) (s : Store) (n : String) (v : ℚ)
    (h : lookupStore s n = some v) : get_variable true init s n = Except.ok (s, v) := by
  unfold get_variable
  rw [h]
  simp

/-- A successful fresh (`reuse=False`) convolution build: the two layer
variables are created on top of the store, and any later store that
preserves the result rebuilds the identical output under
`reuse=True` without changing the store. -/
theorem conv2d_false_ok (init : String → ℚ) (store : Store) (scope : String) (x : Batch)
    (od ks st : ℕ) (pad : Padding) (name : String) (s' : Store) (out : Batch)
    (h : conv2d false init store scope x od ks st pad name = Except.ok (s', out)) :
    s' = (scope ++ "/" ++ name ++ "/b", init (scope ++ "/" ++ name ++ "/b")) ::
         (scope ++ "/" ++ name ++ "/w", init (scope ++ "/" ++ name ++ "/w")) :: store ∧
    preserves store s' ∧
    (∀ s2, preserves s' s2 →
      conv2d true init s2 scope x od ks st pad name = Except.ok (s2, out)) := by
  unfold conv2d at h
  simp only [Bind.bind] at h
  cases hw : get_variable false init store (scope ++ "/" ++ name ++ "/w") with
  | error m => rw [hw] at h; simp [Except.bind] at h
  | ok p =>
    rw [hw] at h
    obtain ⟨sa, w⟩ := p
    simp only [Except.bind] at h
    cases hb : get_variable false init sa (scope ++ "/" ++ name ++ "/b") with
    | error m => rw [hb] at h; simp [Except.bind] at h
    | ok q =>
      rw [hb] at h
      obtain ⟨sb, b⟩ := q
      simp only [Except.bind, Except.ok.injEq, Prod.mk.injEq] at h
      obtain ⟨hwn, hsa, hwv⟩ := getVar_false_ok init store _ sa w hw
      obtain ⟨hbn, hsb, hbv⟩ := getVar_false_ok init sa _ sb b hb
      obtain ⟨hs', hout⟩ := h
      subst hsa hsb hwv hbv
      subst hs' hout
      refine ⟨rfl, ?_, ?_⟩
      · exact preserves_trans (preserves_cons store _ _ hwn) (preserves_cons _ _ _ hbn)
      · intro s2 hp2
        have hw2 : lookupStore s2 (scope ++ "/" ++ name ++ "/w") =
            some (init (scope ++ "/" ++ name ++ "/w")) := by
          refine hp2 _ _ ?_
          exact lookup_after_fresh _ _ _ _ _ (lookupStore_head _ _ _) hbn
        have hb2 : lookupStore s2 (scope ++ "/" ++ name ++ "/b") =
            some (init (scope ++ "/" ++ name ++ "/b")) := by
          refine hp2 _ _ ?_
          exact lookupStore_head _ _ _
        unfold conv2d
        simp only [Bind.bind]
        rw [getVar_true_of_lookup init s2 _ _ hw2]
        simp only [Except.bind]
        rw [getVar_true_of_lookup init s2 _ _ hb2]

/-- The `instance_norm` analogue of `conv2d_false_ok`. -/
theorem instance_norm_false_ok (init : String → ℚ) (store : Store) (scope : String)
    (x : Batch) (name : String) (s' : Store) (out : Batch)
    (h : instance_norm false init store scope x name = Except.ok (s', out)) :
    s' = (scope ++ "/" ++ name ++ "/offset", init (scope ++ "/" ++ name ++ "/offset")) ::
         (scope ++ "/" ++ name ++ "/scale", init (scope ++ "/" ++ name ++ "/scale")) :: store ∧
    preserves store s' ∧
    (∀ s2, preserves s' s2 →
      instance_norm true init s2 scope x name = Except.ok (s2, out)) := by
  unfold instance_norm at h
  simp only [Bind.bind] at h
  cases hw : get_variable false init store (scope ++ "/" ++ name ++ "/scale") with
  | error m => rw [hw] at h; simp [Except.bind] at h
  | ok p =>
    rw [hw] at h
    obtain ⟨sa, w⟩ := p
    simp only [Except.bind] at h
    cases hb : get_variable false init sa (scope ++ "/" ++ name ++ "/offset") with
    | error m => rw [hb] at h; simp [Except.bind] at h
    | ok q =>
      rw [hb] at h
      obtain ⟨sb, b⟩ := q
      simp only [Except.bind, Except.ok.injEq, Prod.mk.injEq] at h
      obtain ⟨hwn, hsa, hwv⟩ := getVar_false_ok init store _ sa w hw
      obtain ⟨hbn, hsb, hbv⟩ := getVar_false_ok init sa _ sb b hb
      obtain ⟨hs', hout⟩ := h
      subst hsa hsb hwv hbv
      subst hs' hout
      refine ⟨rfl, ?_, ?_⟩
      · exact preserves_trans (preserves_cons store _ _ hwn) (preserves_cons _ _ _ hbn)
      · intro s2 hp2
        have hw2 : lookupStore s2 (scope ++ "/" ++ name ++ "/scale") =
            some (init (scope ++ "/" ++ name ++ "/scale")) := by
          refine hp2 _ _ ?_
          exact lookup_after_fresh _ _ _ _ _ (lookupStore_head _ _ _) hbn
        have hb2 : lookupStore s2 (scope ++ "/" ++ name ++ "/offset") =
            some (init (scope ++ "/" ++ name ++ "/offset")) := by
          refine hp2 _ _ ?_
          exact lookupStore_head _ _ _
        unfold instance_norm
        simp only [Bind.bind]
        rw [getVar_true_of_lookup init s2 _ _ hw2]
        simp only [Except.bind]
        rw [getVar_true_of_lookup init s2 _ _ hb2]

/-- A successful fresh discriminator build creates exactly the
`discrimVarNames` variables on top of the store, and rebuilding with
`reuse=True` under the same scope on the resulting store succeeds with
the identical output and an unchanged store. -/
theorem discriminator_false_ok (init : String → ℚ) (store : Store) (image : Batch)
    (df ks dl : ℕ) (name : String) (s' : Store) (out : Batch)
    (h : discriminator false init store image df ks dl name = Except.ok (s', out)) :
    s'.map Prod.fst = discrimVarNames name ++ store.map Prod.fst ∧
    preserves store s' ∧
    discriminator true init s' image df ks dl name = Except.ok (s', out) := by
  unfold discriminator at h
  simp only [Bind.bind] at h
  cases h1 : conv2d false init store name image df ks 2 Padding.SAME "d_h0_conv" with
  | error m => rw [h1] at h; simp [Except.bind] at h
  | ok p1 =>
    rw [h1] at h
    obtain ⟨sA, h0c⟩ := p1
    simp only [Except.bind] at h
    cases h2 : conv2d false init sA name (mapBatch lrelu h0c) (df * 2) ks 2
        Padding.SAME "d_h1_conv" with
    | error m => rw [h2] at h; simp [Except.bind] at h
    | ok p2 =>
      rw [h2] at h
      obtain ⟨sB, h1c⟩ := p2
      simp only [Except.bind] at h
      cases h3 : instance_norm false init sB name h1c "d_bn1" with
      | error m => rw [h3] at h; simp [Except.bind] at h
      | ok p3 =>
        rw [h3] at h
        obtain ⟨sC, h1n⟩ := p3
        simp only [Except.bind] at h
        cases h4 : conv2d false init sC name (mapBatch lrelu h1n) (df * 4) ks 2
            Padding.SAME "d_h2_conv" with
        | error m => rw [h4] at h; simp [Except.bind] at h
        | ok p4 =>
          rw [h4] at h
          obtain ⟨sD, h2c⟩ := p4
          simp only [Except.bind] at h
          cases h5 : instance_norm false init sD name h2c "d_bn2" with
          | error m => rw [h5] at h; simp [Except.bind] at h
          | ok p5 =>
            rw [h5] at h
            obtain ⟨sE, h2n⟩ := p5
            simp only [Except.bind] at h
            cases h6 : conv2d false init sE name (mapBatch lrelu h2n) dl ks 1
                Padding.SAME "d_h3_pred" with
            | error m => rw [h6] at h; simp [Except.bind] at h
            | ok p6 =>
              rw [h6] at h
              obtain ⟨sF, hlast⟩ := p6
              simp only [Except.bind, Except.ok.injEq, Prod.mk.injEq] at h
              obtain ⟨hsF, hout⟩ := h
              subst hsF hout
              obtain ⟨e1, q1, r1⟩ := conv2d_false_ok init store name image df ks 2
                Padding.SAME "d_h0_conv" sA h0c h1
              obtain ⟨e2, q2, r2⟩ := conv2d_false_ok init sA name (mapBatch lrelu h0c)
                (df * 2) ks 2 Padding.SAME "d_h1_conv" sB h1c h2
              obtain ⟨e3, q3, r3⟩ := instance_norm_false_ok init sB name h1c "d_bn1"
                sC h1n h3
              obtain ⟨e4, q4, r4⟩ := conv2d_false_ok init sC name (mapBatch lrelu h1n)
                (df * 4) ks 2 Padding.SAME "d_h2_conv" sD h2c h4
              obtain ⟨e5, q5, r5⟩ := instance_norm_false_ok init sD name h2c "d_bn2"
                sE h2n h5
              obtain ⟨e6, q6, r6⟩ := conv2d_false_ok init sE name (mapBatch lrelu h2n)
                dl ks 1 Padding.SAME "d_h3_pred" sF hlast h6
              have pA : preserves sA sF :=
                preserves_trans q2 (preserves_trans q3 (preserves_trans q4
                  (preserves_trans q5 q6)))
              have pB : preserves sB sF :=
                preserves_trans q3 (preserves_trans q4 (preserves_trans q5 q6))
              have pC : preserves sC sF :=
                preserves_trans q4 (preserves_trans q5 q6)
              have pD : preserves sD sF := preserves_trans q5 q6
              have pE : preserves sE sF := q6
              have pF : preserves sF sF := fun n v hv => hv
              refine ⟨?_, ?_, ?_⟩
              · subst e6 e5 e4 e3 e2 e1
                simp [discrimVarNames]
              · exact preserves_trans q1 pA
              · unfold discriminator
                simp only [Bind.bind]
                rw [r1 sF pA]
                simp only [Except.bind]
                rw [r2 sF pB]
                simp only [Except.bind]
                rw [r3 sF pC]
                simp only [Except.bind]
                rw [r4 sF pD]
                simp only [Except.bind]
                rw [r5 sF pE]
                simp only [Except.bind]
                rw [r6 sF pF]

/-- C2: building the discriminator a second time with `reuse=True` under
the identical scope name uses the very parameters the first build
created — the store is unchanged and the forward pass gives the
identical output on every input; and the parameter names of a
discriminator build are its scope-prefixed `discrimVarNames`, so the
denoise-adversary scope (`denoise/discriminator`) and the input-gate
scope (`input_discrim/discriminator`) share no parameter at all. -/
theorem C2_discriminator_reuse_and_scoping :
    (∀ (init : String → ℚ) (store : Store) (image : Batch) (df ks dl : ℕ)
        (name : String) (s' : Store) (out : Batch),
      discriminator false init store image df ks dl name = Except.ok (s', out) →
      discriminator true init s' image df ks dl name = Except.ok (s', out) ∧
      s'.map Prod.fst = discrimVarNames name ++ store.map Prod.fst) ∧
    (∀ n ∈ discrimVarNames "denoise/discriminator",
      n ∉ discrimVarNames "input_discrim/discriminator") := by
  constructor
  · intro init store image df ks dl name s' out h
    obtain ⟨hk, _, hr⟩ := discriminator_false_ok init store image df ks dl name s' out h
    exact ⟨hr, hk⟩
  · decide

/-- C2 witness: a concrete pair of builds, via the theorem. -/
theorem C2_discriminator_reuse_witness :
    ∃ s' out,
      discriminator false (fun _ => 1/2) [] [zeroImage 2 2 1] 1 3 1
        "denoise/discriminator" = Except.ok (s', out) ∧
      discriminator true (fun _ => 1/2) s' [zeroImage 2 2 1] 1 3 1
        "denoise/discriminator" = Except.ok (s', out) ∧
      s'.map Prod.fst = discrimVarNames "denoise/discriminator" := by
  have h : ∃ s o, discriminator false (fun _ => 1/2) [] [zeroImage 2 2 1] 1 3 1
      "denoise/discriminator" = Except.ok (s, o) := ⟨_, _, rfl⟩
  obtain ⟨s, o, h⟩ := h
  have h2 := C2_discriminator_reuse_and_scoping.1 (fun _ => 1/2) [] [zeroImage 2 2 1]
    1 3 1 "denoise/discriminator" s o h
  refine ⟨s, o, h, h2.1, ?_⟩
  have h3 := h2.2
  simpa using h3

/-! ## Shape lemmas for the resnet generator -/

theorem headD_length_of_rect (im : Image) (h w : ℕ) (hr : rectI im h w) (h1 : 1 ≤ h) :
    (im.headD []).length = w := by
  rcases im with _ | ⟨r, t⟩
  · exfalso
    have := hr.1
    simp at this
    omega
  · exact hr.2 r (List.mem_cons_self _ _)

theorem rectI_convApply (wv bv : ℚ) (dim ks st : ℕ) (pad : Padding) (im : Image)
    (h w : ℕ) (hr : rectI im h w) (h1 : 1 ≤ h) :
    rectI (convApply wv bv dim ks st pad im)
      (convOutSize pad h ks st) (convOutSize pad w ks st) := by
  unfold convApply
  rw [hr.1, headD_length_of_rect im h w hr h1]
  constructor
  · simp
  · intro r hrr
    obtain ⟨i, _, hi⟩ := List.mem_map.mp hrr
    rw [← hi]
    simp

theorem length_flatMap_replicate {α β : Type} (s : ℕ) (g : α → β) (l : List α) :
    (l.flatMap (fun r => List.replicate s (g r))).length = l.length * s := by
  induction l with
  | nil => simp
  | cons a t ih =>
    simp only [List.flatMap_cons, List.length_append, List.length_replicate,
      List.length_cons, ih]
    ring

theorem rectI_deconvApply (wv bv : ℚ) (dim st : ℕ) (im : Image) (h w : ℕ)
    (hr : rectI im h w) :
    rectI (deconvApply wv bv dim st im) (h * st) (w * st) := by
  unfold deconvApply
  constructor
  · rw [length_flatMap_replicate st _ im, hr.1]
  · intro r hrr
    obtain ⟨row, hrow, hmem⟩ := List.mem_flatMap.mp hrr
    have := List.eq_of_mem_replicate hmem
    subst this
    rw [length_flatMap_replicate st _ row, hr.2 row hrow]

theorem rectI_mapImage (f : ℚ → ℚ) (im : Image) (h w : ℕ) (hr : rectI im h w) :
    rectI (mapImage f im) h w := by
  unfold mapImage
  constructor
  · simp [hr.1]
  · intro r hrr
    obtain ⟨r0, hr0, hi⟩ := List.mem_map.mp hrr
    rw [← hi]
    simp [hr.2 r0 hr0]

theorem mem_zipWith_ex {α β γ : Type} (g : α → β → γ) :
    ∀ (as : List α) (bs : List β) (y : γ), y ∈ List.zipWith g as bs →
      ∃ a b, a ∈ as ∧ b ∈ bs ∧ y = g a b := by
  intro as
  induction as with
  | nil => intro bs y hy; simp at hy
  | cons a t ih =>
    intro bs y hy
    rcases bs with _ | ⟨b, tb⟩
    · simp at hy
    · rcases List.mem_cons.mp hy with h | h
      · exact ⟨a, b, List.mem_cons_self _ _, List.mem_cons_self _ _, h⟩
      · obtain ⟨a2, b2, ha2, hb2, hy2⟩ := ih tb y h
        exact ⟨a2, b2, List.mem_cons_of_mem _ ha2, List.mem_cons_of_mem _ hb2, hy2⟩

theorem rectI_zipImage (f : ℚ → ℚ → ℚ) (a b : Image) (h w : ℕ)
    (ha : rectI a h w) (hb : rectI b h w) : rectI (zipImage f a b) h w := by
  unfold zipImage
  constructor
  · simp [List.length_zipWith, ha.1, hb.1]
  · intro r hrr
    obtain ⟨ra, rb, hra, hrb, hr⟩ := mem_zipWith_ex _ a b r hrr
    subst hr
    simp [List.length_zipWith, ha.2 ra hra, hb.2 rb hrb]

theorem reflectPadList_length {α : Type} (p : ℕ) (l : List α) (hp : p + 1 ≤ l.length) :
    (reflectPadList p l).length = l.length + 2 * p := by
  unfold reflectPadList
  simp only [List.length_append, List.length_reverse, List.length_take,
    List.length_drop]
  omega

theorem mem_reflectPadList {α : Type} (p : ℕ) (l : List α) (x : α)
    (hx : x ∈ reflectPadList p l) : x ∈ l := by
  unfold reflectPadList at hx
  rcases List.mem_append.mp hx with h | h
  · rcases List.mem_append.mp h with h2 | h2
    · exact List.mem_of_mem_drop (List.mem_of_mem_take (List.mem_reverse.mp h2))
    · exact h2
  · exact List.mem_reverse.mp (List.mem_of_mem_drop (List.mem_of_mem_take h))

theorem rectI_reflectPadImage (p : ℕ) (im : Image) (h w : ℕ) (hr : rectI im h w)
    (hph : p + 1 ≤ h) (hpw : p + 1 ≤ w) :
    rectI (reflectPadImage p im) (h + 2 * p) (w + 2 * p) := by
  unfold reflectPadImage
  constructor
  · rw [reflectPadList_length p _ (by simp [hr.1]; omega)]
    simp [hr.1]
  · intro r hrr
    have hmem := mem_reflectPadList p _ r hrr
    obtain ⟨r0, hr0, hi⟩ := List.mem_map.mp hmem
    rw [← hi]
    rw [reflectPadList_length p r0 (by rw [hr.2 r0 hr0]; omega)]
    rw [hr.2 r0 hr0]

theorem rectB_mapBatch (f : ℚ → ℚ) (x : Batch) (h w : ℕ) (hr : rectB x h w) :
    rectB (mapBatch f x) h w := by
  intro im him
  obtain ⟨im0, him0, hi⟩ := List.mem_map.mp him
  rw [← hi]
  exact rectI_mapImage f im0 h w (hr im0 him0)

theorem rectB_zipBatch (f : ℚ → ℚ → ℚ) (a b : Batch) (h w : ℕ)
    (ha : rectB a h w) (hb : rectB b h w) : rectB (zipBatch f a b) h w := by
  intro im him
  obtain ⟨ia, ib, hia, hib, hi⟩ := mem_zipWith_ex _ a b im him
  subst hi
  exact rectI_zipImage f ia ib h w (ha ia hia) (hb ib hib)

theorem conv2d_ok_shape (reuse : Bool) (init : String → ℚ) (store : Store)
    (scope : String) (x : Batch) (od ks st : ℕ) (pad : Padding) (name : String)
    (s' : Store) (out : Batch)
    (h : conv2d reuse init store scope x od ks st pad name = Except.ok (s', out)) :
    ∃ wv bv, out = x.map (convApply wv bv od ks st pad) := by
  unfold conv2d at h
  simp only [Bind.bind] at h
  cases hw : get_variable reuse init store (scope ++ "/" ++ name ++ "/w") with
  | error m => rw [hw] at h; simp [Except.bind] at h
  | ok p =>
    rw [hw] at h
    obtain ⟨sa, wv⟩ := p
    simp only [Except.bind] at h
    cases hb : get_variable reuse init sa (scope ++ "/" ++ name ++ "/b") with
    | error m => rw [hb] at h; simp [Except.bind] at h
    | ok q =>
      rw [hb] at h
      obtain ⟨sb, bv⟩ := q
      simp only [Except.bind, Except.ok.injEq, Prod.mk.injEq] at h
      exact ⟨wv, bv, h.2.symm⟩

theorem deconv2d_ok_shape (reuse : Bool) (init : String → ℚ) (store : Store)
    (scope : String) (x : Batch) (od ks st : ℕ) (name : String)
    (s' : Store) (out : Batch)
    (h : deconv2d reuse init store scope x od ks st name = Except.ok (s', out)) :
    ∃ wv bv, out = x.map (deconvApply wv bv od st) := by
  unfold deconv2d at h
  simp only [Bind.bind] at h
  cases hw : get_variable reuse init store (scope ++ "/" ++ name ++ "/w") with
  | error m => rw [hw] at h; simp [Except.bind] at h
  | ok p =>
    rw [hw] at h
    obtain ⟨sa, wv⟩ := p
    simp only [Except.bind] at h
    cases hb : get_variable reuse init sa (scope ++ "/" ++ name ++ "/b") with
    | error m => rw [hb] at h; simp [Except.bind] at h
    | ok q =>
      rw [hb] at h
      obtain ⟨sb, bv⟩ := q
      simp only [Except.bind, Except.ok.injEq, Prod.mk.injEq] at h
      exact ⟨wv, bv, h.2.symm⟩

theorem instance_norm_ok_shape (reuse : Bool) (init : String → ℚ) (store : Store)
    (scope : String) (x : Batch) (name : String) (s' : Store) (out : Batch)
    (h : instance_norm reuse init store scope x name = Except.ok (s', out)) :
    ∃ g o, out = x.map (fun im => mapImage (fun v => g * (v - imageMean im) + o) im) := by
  unfold instance_norm at h
  simp only [Bind.bind] at h
  cases hw : get_variable reuse init store (scope ++ "/" ++ name ++ "/scale") with
  | error m => rw [hw] at h; simp [Except.bind] at h
  | ok p =>
    rw [hw] at h
    obtain ⟨sa, g⟩ := p
    simp only [Except.bind] at h
    cases hb : get_variable reuse init sa (scope ++ "/" ++ name ++ "/offset") with
    | error m => rw [hb] at h; simp [Except.bind] at h
    | ok q =>
      rw [hb] at h
      obtain ⟨sb, o⟩ := q
      simp only [Except.bind, Except.ok.injEq, Prod.mk.injEq] at h
      exact ⟨g, o, h.2.symm⟩

theorem convOutSize_same_one (n ks : ℕ) : convOutSize Padding.SAME n ks 1 = n :=
  poolOut_one n

theorem convOutSize_valid_pad (n : ℕ) (h1 : 1 ≤ n) :
    convOutSize Padding.VALID (n + 2 * 1) 3 1 = n := by
  show (if 3 ≤ n + 2 * 1 then (n + 2 * 1 - 3) / 1 + 1 else 0) = n
  rw [if_pos (by omega)]
  omega

theorem conv2d_ok_rect (reuse : Bool) (init : String → ℚ) (store : Store)
    (scope : String) (x : Batch) (od ks st : ℕ) (pad : Padding) (name : String)
    (s' : Store) (out : Batch) (h w : ℕ)
    (hok : conv2d reuse init store scope x od ks st pad name = Except.ok (s', out))
    (hr : rectB x h w) (h1 : 1 ≤ h) :
    rectB out (convOutSize pad h ks st) (convOutSize pad w ks st) ∧
    out.length = x.length := by
  obtain ⟨wv, bv, he⟩ := conv2d_ok_shape reuse init store scope x od ks st pad name
    s' out hok
  subst he
  constructor
  · intro im him
    obtain ⟨im0, him0, hi⟩ := List.mem_map.mp him
    rw [← hi]
    exact rectI_convApply wv bv od ks st pad im0 h w (hr im0 him0) h1
  · simp

theorem deconv2d_ok_rect (reuse : Bool) (init : String → ℚ) (store : Store)
    (scope : String) (x : Batch) (od ks st : ℕ) (name : String)
    (s' : Store) (out : Batch) (h w : ℕ)
    (hok : deconv2d reuse init store scope x od ks st name = Except.ok (s', out))
    (hr : rectB x h w) :
    rectB out (h * st) (w * st) ∧ out.length = x.length := by
  obtain ⟨wv, bv, he⟩ := deconv2d_ok_shape reuse init store scope x od ks st name
    s' out hok
  subst he
  constructor
  · intro im him
    obtain ⟨im0, him0, hi⟩ := List.mem_map.mp him
    rw [← hi]
    exact rectI_deconvApply wv bv od st im0 h w (hr im0 him0)
  · simp

theorem instance_norm_ok_rect (reuse : Bool) (init : String → ℚ) (store : Store)
    (scope : String) (x : Batch) (name : String) (s' : Store) (out : Batch) (h w : ℕ)
    (hok : instance_norm reuse init store scope x name = Except.ok (s', out))
    (hr : rectB x h w) :
    rectB out h w ∧ out.length = x.length := by
  obtain ⟨g, o, he⟩ := instance_norm_ok_shape reuse init store scope x name s' out hok
  subst he
  constructor
  · intro im him
    obtain ⟨im0, him0, hi⟩ := List.mem_map.mp him
    rw [← hi]
    exact rectI_mapImage _ im0 h w (hr im0 him0)
  · simp

theorem residule_block_ok_rect (reuse : Bool) (init : String → ℚ) (store : Store)
    (scope : String) (x : Batch) (dim : ℕ) (name : String) (s' : Store) (y : Batch)
    (h w : ℕ)
    (hok : residule_block reuse init store scope x dim 3 1 name = Except.ok (s', y))
    (hr : rectB x h w) (hh : 2 ≤ h) (hw : 2 ≤ w) :
    rectB y h w ∧ y.length = x.length := by
  unfold residule_block at hok
  simp only [Bind.bind] at hok
  cases h1 : conv2d reuse init store scope (x.map (reflectPadImage ((3 - 1) / 2))) dim 3 1
      Padding.VALID (name ++ "_c1") with
  | error m => rw [h1] at hok; simp [Except.bind] at hok
  | ok p1 =>
    rw [h1] at hok
    obtain ⟨sA, y1⟩ := p1
    simp only [Except.bind] at hok
    cases h2 : instance_norm reuse init sA scope y1 (name ++ "_bn1") with
    | error m => rw [h2] at hok; simp [Except.bind] at hok
    | ok p2 =>
      rw [h2] at hok
      obtain ⟨sB, y2⟩ := p2
      simp only [Except.bind] at hok
      cases h3 : conv2d reuse init sB scope
          ((mapBatch relu y2).map (reflectPadImage ((3 - 1) / 2))) dim 3 1
          Padding.VALID (name ++ "_c2") with
      | error m => rw [h3] at hok; simp [Except.bind] at hok
      | ok p3 =>
        rw [h3] at hok
        obtain ⟨sC, y4⟩ := p3
        simp only [Except.bind] at hok
        cases h4 : instance_norm reuse init sC scope y4 (name ++ "_bn2") with
        | error m => rw [h4] at hok; simp [Except.bind] at hok
        | ok p4 =>
          rw [h4] at hok
          obtain ⟨sD, y5⟩ := p4
          simp only [Except.bind, Except.ok.injEq, Prod.mk.injEq] at hok
          obtain ⟨-, hy⟩ := hok
          subst hy
          have hy0 : rectB (x.map (reflectPadImage ((3 - 1) / 2))) (h + 2 * 1) (w + 2 * 1) := by
            intro im him
            obtain ⟨im0, him0, hi⟩ := List.mem_map.mp him
            rw [← hi]
            exact rectI_reflectPadImage 1 im0 h w (hr im0 him0) (by omega) (by omega)
          have hx1 := conv2d_ok_rect reuse init store scope _ dim 3 1 Padding.VALID
            (name ++ "_c1") sA y1 (h + 2 * 1) (w + 2 * 1) h1 hy0 (by omega)
          rw [convOutSize_valid_pad h (by omega), convOutSize_valid_pad w (by omega)] at hx1
          have hx2 := instance_norm_ok_rect reuse init sA scope y1 (name ++ "_bn1")
            sB y2 h w h2 hx1.1
          have hy3 : rectB ((mapBatch relu y2).map (reflectPadImage ((3 - 1) / 2)))
              (h + 2 * 1) (w + 2 * 1) := by
            intro im him
            obtain ⟨im0, him0, hi⟩ := List.mem_map.mp him
            rw [← hi]
            exact rectI_reflectPadImage 1 im0 h w
              (rectB_mapBatch relu y2 h w hx2.1 im0 him0) (by omega) (by omega)
          have hx3 := conv2d_ok_rect reuse init sB scope _ dim 3 1 Padding.VALID
            (name ++ "_c2") sC y4 (h + 2 * 1) (w + 2 * 1) h3 hy3 (by omega)
          rw [convOutSize_valid_pad h (by omega), convOutSize_valid_pad w (by omega)] at hx3
          have hx4 := instance_norm_ok_rect reuse init sC scope y4 (name ++ "_bn2")
            sD y5 h w h4 hx3.1
          constructor
          · exact rectB_zipBatch _ y5 x h w hx4.1 hr
          · have hlen : y5.length = x.length := by
              rw [hx4.2, hx3.2]
              simp only [List.length_map]
              rw [show (mapBatch relu y2).length = y2.length by simp [mapBatch]]
              rw [hx2.2, hx1.2]
              simp
            simp only [zipBatch, List.length_zipWith, hlen, min_self]

theorem resStep_ok_rect (cond : Prop) [Decidable cond] (reuse : Bool)
    (init : String → ℚ) (store : Store) (scope : String) (x : Batch) (dim : ℕ)
    (name : String) (s' : Store) (y : Batch) (h w : ℕ)
    (hok : resStep cond reuse init store scope x dim name = Except.ok (s', y))
    (hr : rectB x h w) (hcond : cond → 2 ≤ h ∧ 2 ≤ w) :
    rectB y h w ∧ y.length = x.length := by
  unfold resStep at hok
  split_ifs at hok with hc
  · exact residule_block_ok_rect reuse init store scope x dim name s' y h w hok hr
      (hcond hc).1 (hcond hc).2
  · simp only [pure, Except.pure, Except.ok.injEq, Prod.mk.injEq] at hok
    rw [← hok.2]
    exact ⟨hr, rfl⟩

theorem tanhQ_abs_le_one (x : ℚ) : |tanhQ x| ≤ 1 := by
  unfold tanhQ
  rw [abs_div]
  have h1 : (0 : ℚ) < 1 + |x| := by positivity
  rw [abs_of_pos h1, div_le_one h1]
  linarith [abs_nonneg x]

theorem batchVals_mapBatch_pred (f : ℚ → ℚ) (P : ℚ → Prop) (hP : ∀ x, P (f x))
    (b : Batch) : ∀ y ∈ batchVals (mapBatch f b), P y := by
  intro y hy
  simp only [batchVals, mapBatch, List.mem_flatMap] at hy
  obtain ⟨im, him, hy⟩ := hy
  obtain ⟨im0, him0, hi⟩ := List.mem_map.mp him
  subst hi
  simp only [imageVals, mapImage, List.mem_flatMap] at hy
  obtain ⟨row, hrow, hy⟩ := hy
  obtain ⟨row0, hrow0, hi⟩ := List.mem_map.mp hrow
  subst hi
  obtain ⟨pix, hpix, hy⟩ := hy
  obtain ⟨pix0, hpix0, hi⟩ := List.mem_map.mp hpix
  subst hi
  obtain ⟨x, hx, hy'⟩ := List.mem_map.mp hy
  rw [← hy']
  exact hP x

theorem batchVals_zipBatch_pred (f : ℚ → ℚ → ℚ) (P : ℚ → Prop)
    (hP : ∀ x y, P (f x y)) (a b : Batch) :
    ∀ y ∈ batchVals (zipBatch f a b), P y := by
  intro y hy
  simp only [batchVals, zipBatch, List.mem_flatMap] at hy
  obtain ⟨im, him, hy⟩ := hy
  obtain ⟨ia, ib, hia, hib, hi⟩ := mem_zipWith_ex _ a b im him
  subst hi
  simp only [imageVals, zipImage, List.mem_flatMap] at hy
  obtain ⟨row, hrow, hy⟩ := hy
  obtain ⟨ra, rb, hra, hrb, hi⟩ := mem_zipWith_ex _ ia ib row hrow
  subst hi
  obtain ⟨pix, hpix, hy⟩ := hy
  obtain ⟨ca, cb, hca, hcb, hi⟩ := mem_zipWith_ex _ ra rb pix hpix
  subst hi
  obtain ⟨x, yv, hx, hyv, hy'⟩ := mem_zipWith_ex _ ca cb y hy
  rw [hy']
  exact hP x yv

/-- Inversion of a successful monadic bind. -/
theorem except_bind_ok_inv {α β : Type} (E : Except String α)
    (k : α → Except String β) (r : β)
    (h : Except.bind E k = Except.ok r) : ∃ a, E = Except.ok a ∧ k a = Except.ok r := by
  cases E with
  | error m => simp [Except.bind] at h
  | ok a => exact ⟨a, rfl, h⟩

/-- C5: for every residual depth in 0–9, a successful resnet-generator
build on a rectangular batch (spatial sides divisible by 4, at least 8
when the residual chain is non-empty so the reflect padding is
well-formed) yields an output of the same spatial shape and batch size
as its input, with all values in `[-1, 1]`; the output is exactly the
input plus a tanh-activated correction term bounded in magnitude by 1,
clipped to the valid range.  Depth 0 in particular builds and runs
(concrete instance in the last conjunct). -/
theorem C5_generator_resnet_shape_bound (reuse : Bool) (init : String → ℚ)
    (store : Store) (image : Batch) (gf res_depth ocd : ℕ) (name : String)
    (h w : ℕ) (s' : Store) (out : Batch)
    (hrect : rectB image h w) (hh4 : 4 ∣ h) (hw4 : 4 ∣ w)
    (hh1 : 1 ≤ h) (hw1 : 1 ≤ w) (hdepth : res_depth ≤ 9)
    (hbig : 1 ≤ res_depth → 8 ≤ h ∧ 8 ≤ w)
    (hok : generator_resnet reuse init store image gf res_depth ocd name =
      Except.ok (s', out)) :
    rectB out h w ∧
    out.length = image.length ∧
    (∃ pred : Batch, rectB pred h w ∧
      (∀ v ∈ batchVals pred, |v| ≤ 1) ∧
      out = zipBatch (fun pv xv => clip_by_value (pv + xv) (-1) 1) pred image) ∧
    (∀ v ∈ batchVals out, -1 ≤ v ∧ v ≤ 1) ∧
    (∃ s0 o0, generator_resnet false (fun _ => 1/2) [] [zeroImage 4 4 1] 1 0 1
        "denoise/generator" = Except.ok (s0, o0) ∧ o0.map imgDims = [(4, 4)]) := by
  unfold generator_resnet at hok
  simp only [Bind.bind] at hok
  obtain ⟨⟨s1, c1c⟩, hS1, hok⟩ := except_bind_ok_inv _ _ _ hok
  obtain ⟨⟨s2, c1n⟩, hS2, hok⟩ := except_bind_ok_inv _ _ _ hok
  obtain ⟨⟨s3, c2c⟩, hS3, hok⟩ := except_bind_ok_inv _ _ _ hok
  obtain ⟨⟨s4, c2n⟩, hS4, hok⟩ := except_bind_ok_inv _ _ _ hok
  obtain ⟨⟨s5, c3c⟩, hS5, hok⟩ := except_bind_ok_inv _ _ _ hok
  obtain ⟨⟨s6, c3n⟩, hS6, hok⟩ := except_bind_ok_inv _ _ _ hok
  obtain ⟨⟨s7, rn1⟩, hR1, hok⟩ := except_bind_ok_inv _ _ _ hok
  obtain ⟨⟨s8, rn2⟩, hR2, hok⟩ := except_bind_ok_inv _ _ _ hok
  obtain ⟨⟨s9, rn3⟩, hR3, hok⟩ := except_bind_ok_inv _ _ _ hok
  obtain ⟨⟨s10, rn4⟩, hR4, hok⟩ := except_bind_ok_inv _ _ _ hok
  obtain ⟨⟨s11, rn5⟩, hR5, hok⟩ := except_bind_ok_inv _ _ _ hok
  obtain ⟨⟨s12, rn6⟩, hR6, hok⟩ := except_bind_ok_inv _ _ _ hok
  obtain ⟨⟨s13, rn7⟩, hR7, hok⟩ := except_bind_ok_inv _ _ _ hok
  obtain ⟨⟨s14, rn8⟩, hR8, hok⟩ := except_bind_ok_inv _ _ _ hok
  obtain ⟨⟨s15, rn9⟩, hR9, hok⟩ := except_bind_ok_inv _ _ _ hok
  obtain ⟨⟨s16, d1c⟩, hD1, hok⟩ := except_bind_ok_inv _ _ _ hok
  obtain ⟨⟨s17, d1n⟩, hD2, hok⟩ := except_bind_ok_inv _ _ _ hok
  obtain ⟨⟨s18, d2c⟩, hD3, hok⟩ := except_bind_ok_inv _ _ _ hok
  obtain ⟨⟨s19, d2n⟩, hD4, hok⟩ := except_bind_ok_inv _ _ _ hok
  obtain ⟨⟨s20, predc⟩, hP1, hok⟩ := except_bind_ok_inv _ _ _ hok
  simp only [Except.ok.injEq, Prod.mk.injEq] at hok
  obtain ⟨-, hout⟩ := hok
  -- spatial dimension bookkeeping
  have hsame1 : convOutSize Padding.SAME h 3 1 = h := convOutSize_same_one h 3
  have hsame1w : convOutSize Padding.SAME w 3 1 = w := convOutSize_same_one w 3
  have hhalf : convOutSize Padding.SAME h 3 2 = h / 2 := by
    show poolOut h 2 = h / 2
    unfold poolOut
    omega
  have hhalfw : convOutSize Padding.SAME w 3 2 = w / 2 := by
    show poolOut w 2 = w / 2
    unfold poolOut
    omega
  have hquart : convOutSize Padding.SAME (h / 2) 3 2 = h / 4 := by
    show poolOut (h / 2) 2 = h / 4
    unfold poolOut
    omega
  have hquartw : convOutSize Padding.SAME (w / 2) 3 2 = w / 4 := by
    show poolOut (w / 2) 2 = w / 4
    unfold poolOut
    omega
  have hq2 : h / 4 * 2 = h / 2 := by omega
  have hq2w : w / 4 * 2 = w / 2 := by omega
  have hh2 : h / 2 * 2 = h := by omega
  have hw2 : w / 2 * 2 = w := by omega
  -- encoder shapes
  have hc1c := conv2d_ok_rect reuse init store name image (gf * 1) 3 1 Padding.SAME
    "g_e1_c" s1 c1c h w hS1 hrect hh1
  rw [hsame1, hsame1w] at hc1c
  have hc1n := instance_norm_ok_rect reuse init s1 name c1c "g_e1_bn" s2 c1n h w
    hS2 hc1c.1
  have hc1 : rectB (mapBatch relu c1n) h w := rectB_mapBatch relu c1n h w hc1n.1
  have hc2c := conv2d_ok_rect reuse init s2 name (mapBatch relu c1n) (gf * 2) 3 2
    Padding.SAME "g_e2_c" s3 c2c h w hS3 hc1 hh1
  rw [hhalf, hhalfw] at hc2c
  have hc2n := instance_norm_ok_rect reuse init s3 name c2c "g_e2_bn" s4 c2n
    (h / 2) (w / 2) hS4 hc2c.1
  have hc2 : rectB (mapBatch relu c2n) (h / 2) (w / 2) :=
    rectB_mapBatch relu c2n (h / 2) (w / 2) hc2n.1
  have hc3c := conv2d_ok_rect reuse init s4 name (mapBatch relu c2n) (gf * 4) 3 2
    Padding.SAME "g_e3_c" s5 c3c (h / 2) (w / 2) hS5 hc2 (by omega)
  rw [hquart, hquartw] at hc3c
  have hc3n := instance_norm_ok_rect reuse init s5 name c3c "g_e3_bn" s6 c3n
    (h / 4) (w / 4) hS6 hc3c.1
  have hc3 : rectB (mapBatch relu c3n) (h / 4) (w / 4) :=
    rectB_mapBatch relu c3n (h / 4) (w / 4) hc3n.1
  -- residual chain shapes
  have hcond1 : (1 ≤ res_depth) → 2 ≤ h / 4 ∧ 2 ≤ w / 4 := by
    intro hk
    have := hbig hk
    omega
  have hrn1 := resStep_ok_rect (1 ≤ res_depth) reuse init s6 name (mapBatch relu c3n)
    (gf * 4) "g_r1" s7 rn1 (h / 4) (w / 4) hR1 hc3 hcond1
  have hrn2 := resStep_ok_rect (2 ≤ res_depth) reuse init s7 name rn1
    (gf * 4) "g_r2" s8 rn2 (h / 4) (w / 4) hR2 hrn1.1 (fun hk => hcond1 (by omega))
  have hrn3 := resStep_ok_rect (3 ≤ res_depth) reuse init s8 name rn2
    (gf * 4) "g_r3" s9 rn3 (h / 4) (w / 4) hR3 hrn2.1 (fun hk => hcond1 (by omega))
  have hrn4 := resStep_ok_rect (4 ≤ res_depth) reuse init s9 name rn3
    (gf * 4) "g_r4" s10 rn4 (h / 4) (w / 4) hR4 hrn3.1 (fun hk => hcond1 (by omega))
  have hrn5 := resStep_ok_rect (5 ≤ res_depth) reuse init s10 name rn4
    (gf * 4) "g_r5" s11 rn5 (h / 4) (w / 4) hR5 hrn4.1 (fun hk => hcond1 (by omega))
  have hrn6 := resStep_ok_rect (6 ≤ res_depth) reuse init s11 name rn5
    (gf * 4) "g_r6" s12 rn6 (h / 4) (w / 4) hR6 hrn5.1 (fun hk => hcond1 (by omega))
  have hrn7 := resStep_ok_rect (7 ≤ res_depth) reuse init s12 name rn6
    (gf * 4) "g_r7" s13 rn7 (h / 4) (w / 4) hR7 hrn6.1 (fun hk => hcond1 (by omega))
  have hrn8 := resStep_ok_rect (8 ≤ res_depth) reuse init s13 name rn7
    (gf * 4) "g_r8" s14 rn8 (h / 4) (w / 4) hR8 hrn7.1 (fun hk => hcond1 (by omega))
  have hrn9 := resStep_ok_rect (res_depth = 9) reuse init s14 name rn8
    (gf * 4) "g_r9" s15 rn9 (h / 4) (w / 4) hR9 hrn8.1 (fun hk => hcond1 (by omega))
  -- decoder shapes
  have hd1c := deconv2d_ok_rect reuse init s15 name rn9 (gf * 2) 3 2 "g_d1_dc"
    s16 d1c (h / 4) (w / 4) hD1 hrn9.1
  rw [hq2, hq2w] at hd1c
  have hd1n := instance_norm_ok_rect reuse init s16 name d1c "g_d1_bn" s17 d1n
    (h / 2) (w / 2) hD2 hd1c.1
  have hd1 : rectB (zipBatch (· + ·) (mapBatch relu c2n) (mapBatch relu d1n))
      (h / 2) (w / 2) :=
    rectB_zipBatch _ _ _ (h / 2) (w / 2) hc2
      (rectB_mapBatch relu d1n (h / 2) (w / 2) hd1n.1)
  have hd2c := deconv2d_ok_rect reuse init s17 name
    (zipBatch (· + ·) (mapBatch relu c2n) (mapBatch relu d1n)) gf 3 2 "g_d2_dc"
    s18 d2c (h / 2) (w / 2) hD3 hd1
  rw [hh2, hw2] at hd2c
  have hd2n := instance_norm_ok_rect reuse init s18 name d2c "g_d2_bn" s19 d2n
    h w hD4 hd2c.1
  have hd2 : rectB (zipBatch (· + ·) (mapBatch relu c1n) (mapBatch relu d2n)) h w :=
    rectB_zipBatch _ _ _ h w hc1 (rectB_mapBatch relu d2n h w hd2n.1)
  have hpredc := conv2d_ok_rect reuse init s19 name
    (zipBatch (· + ·) (mapBatch relu c1n) (mapBatch relu d2n)) ocd 3 1 Padding.SAME
    "g_pred_c" s20 predc h w hP1 hd2 hh1
  rw [hsame1, hsame1w] at hpredc
  have hpred : rectB (mapBatch tanhQ predc) h w :=
    rectB_mapBatch tanhQ predc h w hpredc.1
  -- batch length bookkeeping
  have hlen_pred : (mapBatch tanhQ predc).length = image.length := by
    simp only [mapBatch, List.length_map]
    rw [hpredc.2]
    simp only [zipBatch, List.length_zipWith, mapBatch, List.length_map]
    rw [hd2n.2, hd2c.2]
    simp only [zipBatch, List.length_zipWith, mapBatch, List.length_map]
    rw [hd1n.2, hd1c.2, hrn9.2, hrn8.2, hrn7.2, hrn6.2, hrn5.2, hrn4.2, hrn3.2,
      hrn2.2, hrn1.2]
    simp only [mapBatch, List.length_map]
    rw [hc3n.2, hc3c.2]
    simp only [mapBatch, List.length_map]
    rw [hc2n.2, hc2c.2]
    simp only [mapBatch, List.length_map]
    rw [hc1n.2, hc1c.2]
    simp
  refine ⟨?_, ?_, ?_, ?_, ?_⟩
  · rw [← hout]
    exact rectB_zipBatch _ _ _ h w hpred hrect
  · rw [← hout]
    simp only [zipBatch, List.length_zipWith, hlen_pred, min_self]
  · exact ⟨mapBatch tanhQ predc, hpred,
      batchVals_mapBatch_pred tanhQ (fun v => |v| ≤ 1) tanhQ_abs_le_one predc,
      hout.symm⟩
  · rw [← hout]
    exact batchVals_zipBatch_pred _ (fun v => -1 ≤ v ∧ v ≤ 1)
      (fun p x2 => clip_mem_unit (p + x2)) _ _
  · exact ⟨_, _, rfl, rfl⟩

theorem rectI_zeroImage (h w c : ℕ) : rectI (zeroImage h w c) h w := by
  constructor
  · simp [zeroImage]
  · intro r hr
    rw [List.eq_of_mem_replicate hr]
    simp

/-- C5 witness: the theorem at a concrete depth-0 build. -/
theorem C5_generator_resnet_witness :
    ∃ s' out,
      generator_resnet false (fun _ => 1/2) [] [zeroImage 4 4 1] 1 0 1
        "denoise/generator" = Except.ok (s', out) ∧
      rectB out 4 4 ∧ out.length = 1 ∧
      (∀ v ∈ batchVals out, -1 ≤ v ∧ v ≤ 1) := by
  have h : ∃ s o, generator_resnet false (fun _ => 1/2) [] [zeroImage 4 4 1] 1 0 1
      "denoise/generator" = Except.ok (s, o) := ⟨_, _, rfl⟩
  obtain ⟨s, o, h⟩ := h
  have hc := C5_generator_resnet_shape_bound false (fun _ => 1/2) [] [zeroImage 4 4 1]
    1 0 1 "denoise/generator" 4 4 s o
    (by
      intro im him
      simp only [List.mem_singleton] at him
      subst him
      exact rectI_zeroImage 4 4 1)
    (by norm_num) (by norm_num)
    (by norm_num) (by norm_num) (by norm_num) (by omega) h
  exact ⟨s, o, h, hc.1, hc.2.1.trans rfl, hc.2.2.2.1⟩
